import Mathlib

/-!
Verification of the merchantDB survey application (src/app.py).

The application is a single-file Streamlit app backed by SQLite.  We give a
shallow embedding of its persistence layer, export pipeline and controller
logic:

* The SQLite database is modelled as a `Store`: the two tables
  `survey_responses` and `survey_answers` as lists of rows in insertion
  (rowid) order, together with the next AUTOINCREMENT ids.
* `execute_query`'s error handling (every statement runs on its own
  connection, a failing statement is rolled back and reported as `None`) is
  modelled by threading an explicit failure schedule `fl : List Bool` through
  each operation: the k-th `true` makes the k-th SQL statement of the
  operation fail.  The empty schedule `[]` means no statement fails.
* Python dicts are modelled as association lists in insertion order with
  `dictInsert` (insert-or-overwrite keeping the original position) and
  `dictGet`.
* pandas dataframes built from a list of row-dicts are modelled by
  `pdDataFrame`; `df.to_csv(index=False)` by `df_to_csv`; `str.encode()` by a
  genuine UTF-8 encoder `utf8Bytes`.
* `json.dumps(data, ensure_ascii=False, indent=2)` is modelled by `dumpsAt`
  over a `Json` syntax tree.  The fueled recursive-descent parser
  `parseVal`/`loads` models `json.loads` only on the serializer's own output
  (null, integers, strings, arrays, objects as printed by `dumpsAt`), where
  it coincides with Python's parser; it is not a model of `json.load` on
  arbitrary text.  `load_data` therefore takes the library parser's outcome
  on the file's content — a document, or a raised `JSONDecodeError` — as an
  oracle argument instead of re-implementing the full Python JSON grammar.
-/

/-- Python dict insert-or-overwrite: an existing key keeps its position in the
insertion order, a new key is appended at the end. -/
def dictInsert {β : Type} (d : List (String × β)) (k : String) (v : β) :
    List (String × β) :=
  if d.any (fun p => p.1 = k) then
    d.map (fun p => if p.1 = k then (k, v) else p)
  else d ++ [(k, v)]

/-- Lookup in an insertion-ordered dict (first binding wins). -/
def dictGet {β : Type} : List (String × β) → String → Option β
  | [], _ => none
  | p :: rest, k => if p.1 = k then some p.2 else dictGet rest k

/-- Consume the next entry of a failure schedule; an exhausted schedule means
no further statement fails. -/
def takeFail : List Bool → Bool × List Bool
  | [] => (false, [])
  | b :: rest => (b, rest)

/-- One row of the `survey_responses` table
(`id, category, merchant_name, timestamp, latitude, longitude`);
`latitude`/`longitude` are nullable TEXT columns. -/
structure ResponseRow where
  id : Nat
  category : String
  merchant_name : String
  timestamp : String
  latitude : Option String
  longitude : Option String
deriving DecidableEq

/-- One row of the `survey_answers` table
(`id, response_id, question, answer`). -/
structure AnswerRow where
  id : Nat
  response_id : Nat
  question : String
  answer : String
deriving DecidableEq

/-- The SQLite database: both tables in rowid (insertion) order plus the next
AUTOINCREMENT values. -/
structure Store where
  responses : List ResponseRow
  answers : List AnswerRow
  nextRespId : Nat
  nextAnsId : Nat
deriving DecidableEq

/-- Well-formedness of a store: AUTOINCREMENT ids start at 1, every stored id
is below the next fresh id, and primary keys are unique. -/
def Store.WF (st : Store) : Prop :=
  1 ≤ st.nextRespId ∧
  (∀ r ∈ st.responses, r.id < st.nextRespId) ∧
  (∀ a ∈ st.answers, a.response_id < st.nextRespId) ∧
  (st.responses.map ResponseRow.id).Nodup

instance (st : Store) : Decidable st.WF := by
  unfold Store.WF; infer_instance

/-- The `for question, answer in answers.items()` loop of `save_survey`: one
INSERT per answer, each on its own connection; a failing INSERT is reported
as `None` by `execute_query` and silently ignored by the loop. -/
def insertAnswersLoop (rid : Nat) : Store → List Bool → List (String × String) → Store
  | st, _, [] => st
  | st, fl, qa :: rest =>
    let (f, fl') := takeFail fl
    if f then insertAnswersLoop rid st fl' rest
    else
      insertAnswersLoop rid
        { st with answers := st.answers ++ [⟨st.nextAnsId, rid, qa.1, qa.2⟩],
                  nextAnsId := st.nextAnsId + 1 } fl' rest

/-- `save_survey` (src/app.py:117-135): insert the response row; if the
returned `lastrowid` is truthy, insert each answer with its own statement,
ignoring individual failures, and return the id; otherwise return `None`.
A failing initial insert also returns `None`. -/
def save_survey (st : Store) (fl : List Bool)
    (category merchant_name timestamp : String)
    (answers : List (String × String)) (latitude longitude : Option String) :
    Store × Option Nat :=
  let (f0, fl) := takeFail fl
  if f0 then (st, none)
  else
    let rid := st.nextRespId
    let st1 : Store :=
      { st with
        responses :=
          st.responses ++ [⟨rid, category, merchant_name, timestamp, latitude, longitude⟩],
        nextRespId := st.nextRespId + 1 }
    if rid ≠ 0 then (insertAnswersLoop rid st1 fl answers, some rid)
    else (st1, none)

/-- The rows returned by `get_recent_responses`: the six header fields only,
answers are not included. -/
structure RecentRow where
  id : Nat
  category : String
  merchant_name : String
  timestamp : String
  latitude : Option String
  longitude : Option String
deriving DecidableEq

/-- Project a stored response row onto the dict shape built by
`get_recent_responses`. -/
def toRecent (r : ResponseRow) : RecentRow :=
  ⟨r.id, r.category, r.merchant_name, r.timestamp, r.latitude, r.longitude⟩

/-- `ORDER BY id DESC`: sort the table by id descending (insertion sort;
with unique primary keys any correct sort produces the same list). -/
def sqlOrderByIdDesc (l : List ResponseRow) : List ResponseRow :=
  List.insertionSort (fun a b => b.id ≤ a.id) l

/-- `get_recent_responses` (src/app.py:137-146):
`SELECT ... ORDER BY id DESC LIMIT {limit}`; a failed or empty result yields
`[]`. -/
def get_recent_responses (st : Store) (fl : List Bool) (limit : Nat) :
    List RecentRow :=
  let (f0, _) := takeFail fl
  let result : Option (List ResponseRow) :=
    if f0 then none else some ((sqlOrderByIdDesc st.responses).take limit)
  match result with
  | none => []
  | some [] => []
  | some rows => rows.map toRecent

/-- The dict built by `get_response_details` and by each iteration of
`get_all_survey_data`: the six header fields plus the answers dict. -/
structure SurveyItem where
  id : Nat
  category : String
  merchant_name : String
  timestamp : String
  latitude : Option String
  longitude : Option String
  answers : List (String × String)
deriving DecidableEq

/-- Rebuild a Python dict from the `(question, answer)` rows of a SELECT, in
row order (`{row[0]: row[1] for row in rows}`). -/
def rowsToDict (rows : List AnswerRow) : List (String × String) :=
  rows.foldl (fun d a => dictInsert d a.question a.answer) []

/-- `get_response_details` (src/app.py:148-177): select the response header by
id (a failed or empty select returns `None`), then select its answers (a
failed select degrades to the empty dict). -/
def get_response_details (st : Store) (fl : List Bool) (rid : Nat) :
    Option SurveyItem :=
  let (f0, fl) := takeFail fl
  let response_info : Option (List ResponseRow) :=
    if f0 then none else some (st.responses.filter (fun r => r.id = rid))
  match response_info with
  | none => none
  | some [] => none
  | some (r0 :: _) =>
    let (f1, _) := takeFail fl
    let answers_result : Option (List AnswerRow) :=
      if f1 then none else some (st.answers.filter (fun a => a.response_id = rid))
    let answers := match answers_result with
      | none => []
      | some rows => rowsToDict rows
    some ⟨rid, r0.category, r0.merchant_name, r0.timestamp, r0.latitude,
          r0.longitude, answers⟩

/-- The per-response loop of `get_all_survey_data`: one answers-SELECT per
response row, consuming the failure schedule left to right. -/
def buildItems (st : Store) : List ResponseRow → List Bool → List SurveyItem
  | [], _ => []
  | r :: rest, fl =>
    let (f, fl') := takeFail fl
    let answers_result : Option (List AnswerRow) :=
      if f then none else some (st.answers.filter (fun a => a.response_id = r.id))
    let answers := match answers_result with
      | none => []
      | some rows => rowsToDict rows
    ⟨r.id, r.category, r.merchant_name, r.timestamp, r.latitude, r.longitude,
     answers⟩ :: buildItems st rest fl'

/-- `get_all_survey_data` (src/app.py:179-216): select all responses (failed
or empty yields `None`), then fetch each response's answers. -/
def get_all_survey_data (st : Store) (fl : List Bool) :
    Option (List SurveyItem) :=
  let (f0, fl) := takeFail fl
  let responses : Option (List ResponseRow) :=
    if f0 then none else some st.responses
  match responses with
  | none => none
  | some [] => none
  | some rows => some (buildItems st rows fl)

/-- The row inserted by `test_connection`'s test INSERT. -/
def testRow (rid : Nat) : ResponseRow :=
  ⟨rid, "Test Category", "Test Merchant", "2023-01-01 00:00:00",
   some "0.0", some "0.0"⟩

/-- `test_connection` (src/app.py:90-115): insert a probe row (result
ignored), select the ids of all rows whose category is "Test Category"; if
any are found, DELETE every row with that category and report success. -/
def test_connection (st : Store) (fl : List Bool) : Store × Bool :=
  let (f0, fl) := takeFail fl
  let st1 :=
    if f0 then st
    else { st with responses := st.responses ++ [testRow st.nextRespId],
                   nextRespId := st.nextRespId + 1 }
  let (f1, fl) := takeFail fl
  let result : Option (List Nat) :=
    if f1 then none
    else some ((st1.responses.filter (fun r => r.category = "Test Category")).map ResponseRow.id)
  match result with
  | none => (st1, false)
  | some [] => (st1, false)
  | some (_ :: _) =>
    let (f2, _) := takeFail fl
    let st2 :=
      if f2 then st1
      else { st1 with
             responses := st1.responses.filter (fun r => r.category ≠ "Test Category") }
    (st2, true)

/-- `init_database` (src/app.py:62-88): two idempotent `CREATE TABLE IF NOT
EXISTS` statements (no row-level effect) followed by `test_connection`. -/
def init_database (st : Store) (fl : List Bool) : Store × Bool :=
  let (_, fl) := takeFail fl
  let (_, fl) := takeFail fl
  test_connection st fl

/-- Outcome of the survey page submit handler. -/
inductive SubmitOutcome where
  | rePrompt : List (String × String) → SubmitOutcome
  | saved : Nat → SubmitOutcome
  | saveError : SubmitOutcome
deriving DecidableEq

/-- The survey page submit handler (src/app.py:476-537): an empty merchant
name shows an error and re-renders the form with the already-selected answers
(the radio widgets keep their state); otherwise `save_survey` is called and
its result decides between the confirmation and the retry state. -/
def survey_submit (st : Store) (fl : List Bool)
    (selected_category merchant_name timestamp : String)
    (answers : List (String × String)) (latitude longitude : Option String) :
    Store × SubmitOutcome :=
  if merchant_name = "" then (st, .rePrompt answers)
  else
    match save_survey st fl selected_category merchant_name timestamp answers
        latitude longitude with
    | (st', some rid) => (st', .saved rid)
    | (st', none) => (st', .saveError)

/-- The answer rows actually persisted by `save_survey`'s per-answer loop
under a failure schedule: each failing statement drops its answer. -/
def persistedAnswers (rid : Nat) : Nat → List Bool → List (String × String) →
    List AnswerRow
  | _, _, [] => []
  | aid, fl, qa :: rest =>
    let (f, fl') := takeFail fl
    if f then persistedAnswers rid aid fl' rest
    else ⟨aid, rid, qa.1, qa.2⟩ :: persistedAnswers rid (aid + 1) fl' rest

/-- A cell of the pandas dataframe: a Python int, a Python str, Python `None`,
or the NaN a missing dict key becomes under `pd.DataFrame(rows)`. -/
inductive Cell where
  | nat : Nat → Cell
  | str : String → Cell
  | null : Cell
  | na : Cell
deriving DecidableEq

/-- How a cell prints in `to_csv`: `None` and NaN render as the empty
string. -/
def Cell.render : Cell → String
  | .nat n => toString n
  | .str s => s
  | .null => ""
  | .na => ""

/-- An optional TEXT column value as a dataframe cell. -/
def optCell : Option String → Cell
  | none => .null
  | some s => .str s

/-- The fixed leading column names of `prepare_survey_dataframe`
(id, category, merchant name, timestamp, latitude, longitude). -/
def fixedCols : List String :=
  ["ID", "الفئة", "اسم التاجر", "التاريخ والوقت", "خط العرض", "خط الطول"]

/-- The fixed part of one dataframe row (src/app.py:249-256). -/
def baseRow (item : SurveyItem) : List (String × Cell) :=
  [("ID", Cell.nat item.id), ("الفئة", Cell.str item.category),
   ("اسم التاجر", Cell.str item.merchant_name),
   ("التاريخ والوقت", Cell.str item.timestamp),
   ("خط العرض", optCell item.latitude), ("خط الطول", optCell item.longitude)]

/-- One row-dict of `prepare_survey_dataframe`: the fixed fields, then
`row[question] = answer` for every answer (src/app.py:259-260). -/
def prepare_row (item : SurveyItem) : List (String × Cell) :=
  item.answers.foldl (fun row qa => dictInsert row qa.1 (Cell.str qa.2))
    (baseRow item)

/-- A pandas dataframe: column names plus row-major cells (one cell per
column in each row). -/
structure DataFrame where
  columns : List String
  cells : List (List Cell)
deriving DecidableEq

/-- Accumulate the keys of a row-dict in first-appearance order. -/
def accuKeys {β : Type} (acc : List String) (row : List (String × β)) :
    List String :=
  row.foldl (fun a kv => if a.contains kv.1 then a else a ++ [kv.1]) acc

/-- `pd.DataFrame(rows)` for a list of row-dicts: the columns are the union
of the keys in first-appearance order; a row's missing key becomes NaN. -/
def pdDataFrame (rows : List (List (String × Cell))) : DataFrame :=
  let cols := rows.foldl accuKeys []
  ⟨cols, rows.map (fun row => cols.map (fun c => (dictGet row c).getD Cell.na))⟩

/-- `prepare_survey_dataframe` (src/app.py:243-264). -/
def prepare_survey_dataframe (data : List SurveyItem) : DataFrame :=
  pdDataFrame (data.map prepare_row)

/-- The cell of a dataframe at row index `i` and column name `c`. -/
def DataFrame.cell (df : DataFrame) (i : Nat) (c : String) : Option Cell :=
  df.cells[i]?.bind fun row => dictGet (df.columns.zip row) c

/-- The distinct question texts of an export input, in first-appearance
order. -/
def questionUnion (data : List SurveyItem) : List String :=
  data.foldl (fun acc item =>
    item.answers.foldl (fun a qa => if a.contains qa.1 then a else a ++ [qa.1]) acc) []

/-- Does a CSV field need quoting (pandas' csv.QUOTE_MINIMAL)? -/
def csvNeedsQuote (s : List Char) : Bool :=
  s.any (fun c => c = ',' || c = Char.ofNat 34 || c = Char.ofNat 10 || c = Char.ofNat 13)

/-- Quote a CSV field, doubling embedded double quotes. -/
def csvQuote (s : List Char) : List Char :=
  Char.ofNat 34 ::
    (s.foldr (fun c acc =>
      if c = Char.ofNat 34 then Char.ofNat 34 :: Char.ofNat 34 :: acc else c :: acc)
      [Char.ofNat 34])

/-- Render one CSV field with minimal quoting. -/
def csvField (s : String) : String :=
  if csvNeedsQuote s.data then ⟨csvQuote s.data⟩ else s

/-- Separator join (the model of `",".join(...)` and of joining lines with
newlines). -/
def sepJoin (sep : String) : List String → String
  | [] => ""
  | [s] => s
  | s :: rest => s ++ sep ++ sepJoin sep rest

/-- A list of lines, each newline-terminated. -/
def linesText : List String → String
  | [] => ""
  | s :: rest => s ++ "\n" ++ linesText rest

/-- The header line of `df.to_csv(index=False)`: the column names,
comma-separated. -/
def csvHeader (df : DataFrame) : String :=
  sepJoin "," (df.columns.map csvField)

/-- The data lines of `df.to_csv(index=False)`: one line per row, each cell
rendered and comma-separated, every line newline-terminated. -/
def csvRowsText (df : DataFrame) : String :=
  linesText (df.cells.map (fun row =>
    sepJoin "," (row.map (fun c => csvField c.render))))

/-- `df.to_csv(index=False)` (used by `create_download_link`,
src/app.py:219-224): header line then data lines, newline-separated with a
trailing newline. -/
def df_to_csv (df : DataFrame) : String :=
  sepJoin "\n"
    (csvHeader df ::
      df.cells.map (fun row =>
        sepJoin "," (row.map (fun c => csvField c.render)))) ++ "\n"

/-- UTF-8 encoding of one code point (1 to 4 bytes). -/
def utf8Char (c : Char) : List Nat :=
  let n := c.toNat
  if n < 0x80 then [n]
  else if n < 0x800 then [0xC0 + n / 0x40, 0x80 + n % 0x40]
  else if n < 0x10000 then
    [0xE0 + n / 0x1000, 0x80 + (n / 0x40) % 0x40, 0x80 + n % 0x40]
  else
    [0xF0 + n / 0x40000, 0x80 + (n / 0x1000) % 0x40, 0x80 + (n / 0x40) % 0x40,
     0x80 + n % 0x40]

/-- `s.encode()`: plain UTF-8 bytes of a Python str, with no byte-order
mark prepended. -/
def utf8Bytes (s : String) : List Nat :=
  s.data.foldr (fun c acc => utf8Char c ++ acc) []

/-- The decoded download payload produced by `create_download_link`
(src/app.py:219-224): the base64 data URL carries exactly the bytes of
`df.to_csv(index=False).encode()`. -/
def create_download_link_bytes (df : DataFrame) : List Nat :=
  utf8Bytes (df_to_csv df)

/-- The double-quote character. -/
def quoteCh : Char := Char.ofNat 34

/-- The backslash character. -/
def backslashCh : Char := Char.ofNat 92

/-- The opening curly bracket character. -/
def lbraceCh : Char := Char.ofNat 123

/-- The closing curly bracket character. -/
def rbraceCh : Char := Char.ofNat 125

/-- JSON values of the subset the application reads and writes: null,
(integer) numbers, strings, arrays and objects.  Strings are carried as
code-point lists. -/
inductive Json where
  | null : Json
  | num : Int → Json
  | str : List Char → Json
  | arr : List Json → Json
  | obj : List (List Char × Json) → Json

/-- Lowercase hexadecimal digit. -/
def hexDigitChar (n : Nat) : Char :=
  if n < 10 then Char.ofNat (48 + n) else Char.ofNat (87 + n)

/-- Decimal digit character. -/
def digitChar (d : Nat) : Char := Char.ofNat (48 + d)

/-- Decimal representation of a natural number, most significant digit
first. -/
def natCharsAux (n : Nat) (acc : List Char) : List Char :=
  if n < 10 then digitChar n :: acc
  else natCharsAux (n / 10) (digitChar (n % 10) :: acc)
termination_by n
decreasing_by exact Nat.div_lt_self (by omega) (by omega)

/-- Decimal representation of a natural number. -/
def natChars (n : Nat) : List Char := natCharsAux n []

/-- How Python prints an int: optional minus sign then decimal digits. -/
def intChars (i : Int) : List Char :=
  if i < 0 then '-' :: natChars i.natAbs else natChars i.toNat

/-- `json.dumps` escaping of one character under `ensure_ascii=False`:
the double quote, the backslash and the named control escapes get two-byte
escapes, the remaining control characters get `\u00xx`, everything else is
emitted verbatim. -/
def escChar (c : Char) : List Char :=
  if c = quoteCh then [backslashCh, quoteCh]
  else if c = backslashCh then [backslashCh, backslashCh]
  else if c = Char.ofNat 8 then [backslashCh, 'b']
  else if c = Char.ofNat 9 then [backslashCh, 't']
  else if c = Char.ofNat 10 then [backslashCh, 'n']
  else if c = Char.ofNat 12 then [backslashCh, 'f']
  else if c = Char.ofNat 13 then [backslashCh, 'r']
  else if c.toNat < 32 then
    [backslashCh, 'u', '0', '0', hexDigitChar (c.toNat / 16), hexDigitChar (c.toNat % 16)]
  else [c]

/-- `json.dumps` escaping of a whole string. -/
def escString (s : List Char) : List Char :=
  s.foldr (fun c acc => escChar c ++ acc) []

/-- A JSON string literal: quoted and escaped. -/
def quoteString (s : List Char) : List Char :=
  quoteCh :: escString s ++ [quoteCh]

/-- The indentation emitted at nesting level `lvl` under `indent=2`. -/
def indentChars (lvl : Nat) : List Char := List.replicate (2 * lvl) ' '

mutual

/-- `json.dumps(v, ensure_ascii=False, indent=2)` at nesting level `lvl`:
non-empty arrays and objects put every item on its own indented line, items
are separated by a comma plus newline, keys by a colon plus space. -/
def dumpsAt : Nat → Json → List Char
  | _, .null => ['n', 'u', 'l', 'l']
  | _, .num i => intChars i
  | _, .str s => quoteString s
  | _, .arr [] => ['[', ']']
  | lvl, .arr (x :: xs) =>
    ['[', '\n'] ++ indentChars (lvl + 1) ++ dumpsAt (lvl + 1) x ++
      dumpsItems (lvl + 1) xs ++ '\n' :: indentChars lvl ++ [']']
  | _, .obj [] => [lbraceCh, rbraceCh]
  | lvl, .obj ((k, v) :: ps) =>
    [lbraceCh, '\n'] ++ indentChars (lvl + 1) ++ quoteString k ++
      ':' :: ' ' :: dumpsAt (lvl + 1) v ++ dumpsPairs (lvl + 1) ps ++
      '\n' :: indentChars lvl ++ [rbraceCh]

/-- The remaining array items, each preceded by a comma, newline and
indentation. -/
def dumpsItems : Nat → List Json → List Char
  | _, [] => []
  | lvl, x :: xs =>
    ',' :: '\n' :: indentChars lvl ++ dumpsAt lvl x ++ dumpsItems lvl xs

/-- The remaining object entries, each preceded by a comma, newline and
indentation. -/
def dumpsPairs : Nat → List (List Char × Json) → List Char
  | _, [] => []
  | lvl, (k, v) :: ps =>
    ',' :: '\n' :: indentChars lvl ++ quoteString k ++ ':' :: ' ' ::
      dumpsAt lvl v ++ dumpsPairs lvl ps

end

/-- JSON whitespace. -/
def isWsCh (c : Char) : Bool :=
  c = ' ' || c = '\n' || c = '\t' || c = '\r'

/-- Skip leading JSON whitespace. -/
def skipWs : List Char → List Char
  | [] => []
  | c :: rest => if isWsCh c then skipWs rest else c :: rest

/-- Decimal digit test. -/
def isDigitCh (c : Char) : Bool := 48 ≤ c.toNat && c.toNat ≤ 57

/-- Value of a hexadecimal digit character. -/
def hexVal (c : Char) : Option Nat :=
  if 48 ≤ c.toNat ∧ c.toNat ≤ 57 then some (c.toNat - 48)
  else if 97 ≤ c.toNat ∧ c.toNat ≤ 102 then some (c.toNat - 87)
  else if 65 ≤ c.toNat ∧ c.toNat ≤ 70 then some (c.toNat - 55)
  else none

/-- Parse the body of a JSON string literal after the opening quote: plain
characters until the closing quote, honouring the backslash escapes. -/
def parseStringBody : List Char → Option (List Char × List Char)
  | [] => none
  | c :: rest =>
    if c = quoteCh then some ([], rest)
    else if c = backslashCh then
      match rest with
      | [] => none
      | e :: rest2 =>
        if e = quoteCh then
          (parseStringBody rest2).map (fun sr => (quoteCh :: sr.1, sr.2))
        else if e = backslashCh then
          (parseStringBody rest2).map (fun sr => (backslashCh :: sr.1, sr.2))
        else if e = '/' then
          (parseStringBody rest2).map (fun sr => ('/' :: sr.1, sr.2))
        else if e = 'b' then
          (parseStringBody rest2).map (fun sr => (Char.ofNat 8 :: sr.1, sr.2))
        else if e = 't' then
          (parseStringBody rest2).map (fun sr => (Char.ofNat 9 :: sr.1, sr.2))
        else if e = 'n' then
          (parseStringBody rest2).map (fun sr => (Char.ofNat 10 :: sr.1, sr.2))
        else if e = 'f' then
          (parseStringBody rest2).map (fun sr => (Char.ofNat 12 :: sr.1, sr.2))
        else if e = 'r' then
          (parseStringBody rest2).map (fun sr => (Char.ofNat 13 :: sr.1, sr.2))
        else if e = 'u' then
          match rest2 with
          | h1 :: h2 :: h3 :: h4 :: rest3 =>
            match hexVal h1, hexVal h2, hexVal h3, hexVal h4 with
            | some a, some b, some g, some d =>
              (parseStringBody rest3).map (fun sr =>
                (Char.ofNat (((a * 16 + b) * 16 + g) * 16 + d) :: sr.1, sr.2))
            | _, _, _, _ => none
          | _ => none
        else none
    else (parseStringBody rest).map (fun sr => (c :: sr.1, sr.2))

/-- Consume a maximal run of decimal digits, accumulating their value. -/
def parseDigits : List Char → Nat → Nat × List Char
  | [], acc => (acc, [])
  | c :: rest, acc =>
    if isDigitCh c then parseDigits rest (acc * 10 + (c.toNat - 48))
    else (acc, c :: rest)

/-- Parse an integer: an optional minus sign followed by at least one
digit. -/
def parseIntChars : List Char → Option (Int × List Char)
  | [] => none
  | c :: rest =>
    if c = '-' then
      match rest with
      | d :: _ =>
        if isDigitCh d then
          let (n, r) := parseDigits rest 0
          some (-(n : Int), r)
        else none
      | [] => none
    else if isDigitCh c then
      let (n, r) := parseDigits (c :: rest) 0
      some ((n : Int), r)
    else none

mutual

/-- Recursive-descent JSON value parser (for the subset of values the
application handles), with a fuel bound on the nesting it will follow. -/
def parseVal : Nat → List Char → Option (Json × List Char)
  | 0, _ => none
  | fuel + 1, l =>
    match skipWs l with
    | [] => none
    | c :: rest =>
      if c = 'n' then
        match rest with
        | 'u' :: 'l' :: 'l' :: r => some (.null, r)
        | _ => none
      else if c = quoteCh then
        (parseStringBody rest).map (fun sr => (.str sr.1, sr.2))
      else if c = '-' || isDigitCh c then
        (parseIntChars (c :: rest)).map (fun ir => (.num ir.1, ir.2))
      else if c = '[' then
        match skipWs rest with
        | ']' :: r => some (.arr [], r)
        | l2 =>
          (parseVal fuel l2).bind fun vr =>
            (parseArrRest fuel vr.2).map fun lr => (.arr (vr.1 :: lr.1), lr.2)
      else if c = lbraceCh then
        match skipWs rest with
        | [] => none
        | c2 :: r =>
          if c2 = rbraceCh then some (.obj [], r)
          else
            (parsePair fuel (c2 :: r)).bind fun pr =>
              (parseObjRest fuel pr.2).map fun lr => (.obj (pr.1 :: lr.1), lr.2)
      else none

/-- After one array item: either the closing bracket or a comma and further
items. -/
def parseArrRest : Nat → List Char → Option (List Json × List Char)
  | 0, _ => none
  | fuel + 1, l =>
    match skipWs l with
    | ']' :: r => some ([], r)
    | ',' :: r =>
      (parseVal fuel r).bind fun vr =>
        (parseArrRest fuel vr.2).map fun lr => (vr.1 :: lr.1, lr.2)
    | _ => none

/-- One `"key": value` entry of an object. -/
def parsePair : Nat → List Char → Option ((List Char × Json) × List Char)
  | 0, _ => none
  | fuel + 1, l =>
    match skipWs l with
    | [] => none
    | c :: r =>
      if c = quoteCh then
        (parseStringBody r).bind fun kr =>
          match skipWs kr.2 with
          | ':' :: r2 => (parseVal fuel r2).map fun vr => ((kr.1, vr.1), vr.2)
          | _ => none
      else none

/-- After one object entry: either the closing bracket or a comma and further
entries. -/
def parseObjRest : Nat → List Char → Option (List (List Char × Json) × List Char)
  | 0, _ => none
  | fuel + 1, l =>
    match skipWs l with
    | [] => none
    | c :: r =>
      if c = rbraceCh then some ([], r)
      else if c = ',' then
        (parsePair fuel r).bind fun pr =>
          (parseObjRest fuel pr.2).map fun lr => (pr.1 :: lr.1, lr.2)
      else none

end

/-- `json.loads` on the serializer's own output: parse one value and require
the remainder to be whitespace.  On the printed forms of `Json` values this
coincides with Python's parser (the round-trip theorem's domain); on
arbitrary text it does not model `json.load` (no floats, booleans, `NaN` or
leading-zero rejection), which is why `load_data` abstracts the library
parser as an oracle instead of reusing this function. -/
def loads (s : String) : Option Json :=
  match parseVal (s.data.length + 1) s.data with
  | some (v, rest) => if (skipWs rest).isEmpty then some v else none
  | none => none

/-- An optional TEXT field as the JSON value Python's serializer gives it
(`None` becomes `null`). -/
def optJson : Option String → Json
  | none => .null
  | some s => .str s.data

/-- The JSON object `json.dumps` receives for one response dict (the dict
built by `get_response_details`/`get_all_survey_data`, keys in insertion
order). -/
def itemToJson (it : SurveyItem) : Json :=
  .obj [("id".data, .num (it.id : Int)), ("category".data, .str it.category.data),
        ("merchant_name".data, .str it.merchant_name.data),
        ("timestamp".data, .str it.timestamp.data),
        ("latitude".data, optJson it.latitude),
        ("longitude".data, optJson it.longitude),
        ("answers".data,
         .obj (it.answers.map (fun qa => (qa.1.data, Json.str qa.2.data))))]

/-- The JSON array `create_json_download_link` serializes for a response
list. -/
def dataToJson (data : List SurveyItem) : Json := .arr (data.map itemToJson)

/-- The decoded download payload text produced by `create_json_download_link`
(src/app.py:236-241): `json.dumps(data, ensure_ascii=False, indent=2)`. -/
def create_json_download_link_text (data : List SurveyItem) : List Char :=
  dumpsAt 0 (dataToJson data)

/-- Read back an optional TEXT field from its JSON value. -/
def decodeOptStr : Json → Option (Option String)
  | .null => some none
  | .str s => some (some ⟨s⟩)
  | _ => none

/-- Read back an answers mapping from the entries of its JSON object. -/
def decodeAnswers : List (List Char × Json) → Option (List (String × String))
  | [] => some []
  | (k, Json.str v) :: rest =>
    (decodeAnswers rest).map (fun r => (⟨k⟩, ⟨v⟩) :: r)
  | _ => none

/-- Read back one response dict from its JSON object (structural inverse of
`itemToJson`). -/
def jsonToItem : Json → Option SurveyItem
  | .obj [(k1, .num i), (k2, .str c), (k3, .str m), (k4, .str t),
          (k5, jlat), (k6, jlng), (k7, .obj ans)] =>
    if k1 = "id".data ∧ k2 = "category".data ∧ k3 = "merchant_name".data ∧
       k4 = "timestamp".data ∧ k5 = "latitude".data ∧ k6 = "longitude".data ∧
       k7 = "answers".data ∧ 0 ≤ i then
      (decodeOptStr jlat).bind fun lat =>
        (decodeOptStr jlng).bind fun lng =>
          (decodeAnswers ans).map fun a => ⟨i.toNat, ⟨c⟩, ⟨m⟩, ⟨t⟩, lat, lng, a⟩
    else none
  | _ => none

/-- Read back a list of response dicts from a parsed JSON array. -/
def decodeItemList : List Json → Option (List SurveyItem)
  | [] => some []
  | j :: rest =>
    (jsonToItem j).bind fun it => (decodeItemList rest).map fun r => it :: r

/-- Read back a response list from a parsed JSON document. -/
def jsonToItems : Json → Option (List SurveyItem)
  | .arr l => decodeItemList l
  | _ => none

/-- What reading `data.json` yielded: the file is missing
(`FileNotFoundError`), unreadable for another reason (`OSError` etc.), or
present with some text content. -/
inductive FileRead where
  | fileNotFound : FileRead
  | otherReadError : FileRead
  | content : String → FileRead

/-- Observable outcome of `load_data`: a parsed document, the
empty-categories fallback together with a user-visible error message, or an
exception escaping the function. -/
inductive LoadOutcome where
  | ok : Json → LoadOutcome
  | errorEmptyCatalog : Json → LoadOutcome
  | exceptionRaised : LoadOutcome

/-- The fallback value `load_data` returns when `data.json` is missing. -/
def emptyCatalog : Json := .obj [("business_categories".data, .arr [])]

/-- `load_data` (src/app.py:266-274): `open('data.json')` followed by
`json.load` inside a `try` whose only handler is `except FileNotFoundError`
(show an error, return the empty catalog); any other read error and any
`json.JSONDecodeError` propagate out of the function.  `json.load` is
standard-library code, not code of this repository, so its behaviour on the
file's text enters the model as an oracle `pyLoad : String → Option Json`
(`some j` = parsed document `j`, `none` = raised `JSONDecodeError`);
`load_data` itself contributes exactly the exception dispatch around it. -/
def load_data (pyLoad : String → Option Json) : FileRead → LoadOutcome
  | .fileNotFound => .errorEmptyCatalog emptyCatalog
  | .otherReadError => .exceptionRaised
  | .content s =>
    match pyLoad s with
    | some j => .ok j
    | none => .exceptionRaised

mutual

/-- Fuel needed by `parseVal` on the printed form of a value (a coarse upper
bound on parser nesting, monotone enough for the round-trip proof). -/
def sizeJ : Json → Nat
  | .null => 1
  | .num _ => 1
  | .str _ => 1
  | .arr xs => 1 + sizeL xs
  | .obj ps => 1 + sizeP ps

/-- Fuel needed by `parseArrRest` on the remaining printed items. -/
def sizeL : List Json → Nat
  | [] => 1
  | x :: xs => 1 + sizeJ x + sizeL xs

/-- Fuel needed by `parsePair`/`parseObjRest` on the remaining printed
entries. -/
def sizeP : List (List Char × Json) → Nat
  | [] => 1
  | (_, v) :: ps => 1 + sizeJ v + sizeP ps

end

theorem takeFail_nil : takeFail [] = (false, []) := rfl

theorem insertAnswersLoop_responses (rid : Nat) (ans : List (String × String)) :
    ∀ (st : Store) (fl : List Bool),
      (insertAnswersLoop rid st fl ans).responses = st.responses := by
  induction ans with
  | nil => intro st fl; rfl
  | cons qa rest ih =>
    intro st fl
    rw [insertAnswersLoop]
    rcases hf : takeFail fl with ⟨f, fl'⟩
    cases f <;> simp [ih]

theorem insertAnswersLoop_nextRespId (rid : Nat) (ans : List (String × String)) :
    ∀ (st : Store) (fl : List Bool),
      (insertAnswersLoop rid st fl ans).nextRespId = st.nextRespId := by
  induction ans with
  | nil => intro st fl; rfl
  | cons qa rest ih =>
    intro st fl
    rw [insertAnswersLoop]
    rcases hf : takeFail fl with ⟨f, fl'⟩
    cases f <;> simp [ih]

theorem insertAnswersLoop_answers (rid : Nat) (ans : List (String × String)) :
    ∀ (st : Store) (fl : List Bool),
      (insertAnswersLoop rid st fl ans).answers
        = st.answers ++ persistedAnswers rid st.nextAnsId fl ans := by
  induction ans with
  | nil => intro st fl; simp [insertAnswersLoop, persistedAnswers]
  | cons qa rest ih =>
    intro st fl
    rw [insertAnswersLoop, persistedAnswers]
    rcases hf : takeFail fl with ⟨f, fl'⟩
    cases f <;> simp [ih]

theorem persistedAnswers_map_sublist (rid : Nat) (ans : List (String × String)) :
    ∀ (aid : Nat) (fl : List Bool),
      ((persistedAnswers rid aid fl ans).map
        (fun a => (a.question, a.answer))).Sublist ans := by
  induction ans with
  | nil => intro aid fl; simp [persistedAnswers]
  | cons qa rest ih =>
    intro aid fl
    rw [persistedAnswers]
    rcases hf : takeFail fl with ⟨f, fl'⟩
    cases f
    · simpa using List.Sublist.cons₂ qa (ih (aid + 1) fl')
    · simpa using List.Sublist.cons qa (ih aid fl')

/-- Claim C9: submitting with an empty merchant name stores nothing: for
every failure schedule the store is returned unchanged (so the row count is
unchanged and `save_survey` has no effect), and the controller re-prompts
carrying the already-selected answers. -/
theorem C9_empty_merchant_name_rejected (st : Store) (fl : List Bool)
    (selected_category merchant_name timestamp : String)
    (answers : List (String × String)) (lat lng : Option String)
    (h : merchant_name = "") :
    survey_submit st fl selected_category merchant_name timestamp answers lat lng
      = (st, .rePrompt answers) := by
  subst h
  simp [survey_submit]

/-- Witness for C9 at a concrete store and submission. -/
theorem C9_empty_merchant_name_rejected_witness :
    ("" : String) = "" ∧
    survey_submit ⟨[], [], 1, 1⟩ [] "Retail" "" "2024-01-01" [("q", "a")] none none
      = (⟨[], [], 1, 1⟩, .rePrompt [("q", "a")]) :=
  ⟨rfl, C9_empty_merchant_name_rejected _ _ _ _ _ _ _ _ rfl⟩

/-- Claim C2 counterexample: when the response INSERT succeeds and the single
answer INSERT fails, `save_survey` still returns identifier 1 while the
answers table stays empty — an identifier is returned although not every
input answer was persisted. -/
theorem C2_counterexample :
    (save_survey ⟨[], [], 1, 1⟩ [false, true] "Retail" "Shop" "t"
        [("q", "a")] none none).2 = some 1 ∧
    (save_survey ⟨[], [], 1, 1⟩ [false, true] "Retail" "Shop" "t"
        [("q", "a")] none none).1.answers = [] := by
  exact ⟨rfl, rfl⟩

/-- Claim C2 as amended: if `save_survey` returns no identifier the store is
unchanged, and if it returns an identifier the response row is persisted but
only those answers whose individual INSERT succeeded are persisted — a
partial answer set can be visible under a returned identifier. -/
theorem C2_amended_partial_answer_writes (st : Store) (h1 : 1 ≤ st.nextRespId)
    (fl : List Bool) (category merchant_name timestamp : String)
    (answers : List (String × String)) (lat lng : Option String) :
    ((save_survey st fl category merchant_name timestamp answers lat lng).2 = none →
      (save_survey st fl category merchant_name timestamp answers lat lng).1 = st) ∧
    (∀ rid,
      (save_survey st fl category merchant_name timestamp answers lat lng).2 = some rid →
      rid = st.nextRespId ∧
      (save_survey st fl category merchant_name timestamp answers lat lng).1.responses
        = st.responses ++ [⟨rid, category, merchant_name, timestamp, lat, lng⟩] ∧
      (save_survey st fl category merchant_name timestamp answers lat lng).1.answers
        = st.answers ++ persistedAnswers rid st.nextAnsId (takeFail fl).2 answers ∧
      ((persistedAnswers rid st.nextAnsId (takeFail fl).2 answers).map
        (fun a => (a.question, a.answer))).Sublist answers) := by
  rcases hf : takeFail fl with ⟨f0, fl'⟩
  have hne : st.nextRespId ≠ 0 := by omega
  cases f0
  · constructor
    · intro h
      simp [save_survey, hf, hne] at h
    · intro rid h
      simp [save_survey, hf, hne] at h
      subst h
      refine ⟨rfl, ?_, ?_, ?_⟩
      · simp [save_survey, hf, hne, insertAnswersLoop_responses]
      · simp [save_survey, hf, hne, insertAnswersLoop_answers]
      · exact persistedAnswers_map_sublist _ _ _ _
  · constructor
    · intro _
      simp [save_survey, hf]
    · intro rid h
      simp [save_survey, hf] at h

/-- Witness for the amended C2 at a concrete store and schedule. -/
theorem C2_amended_partial_answer_writes_witness :
    1 ≤ (⟨[], [], 1, 1⟩ : Store).nextRespId ∧
    ((save_survey ⟨[], [], 1, 1⟩ [false, true] "Retail" "Shop" "t"
        [("q", "a")] none none).2 = some 1 →
      (save_survey ⟨[], [], 1, 1⟩ [false, true] "Retail" "Shop" "t"
        [("q", "a")] none none).1.answers
        = [] ++ persistedAnswers 1 1 (takeFail [false, true]).2 [("q", "a")]) :=
  ⟨by decide, fun h =>
    ((C2_amended_partial_answer_writes ⟨[], [], 1, 1⟩ (by decide) [false, true]
      "Retail" "Shop" "t" [("q", "a")] none none).2 1 h).2.2.1⟩

/-- Claim C3 counterexample: a user-created response whose category happens to
be "Test Category" is deleted by `test_connection` (run on every process
start via `init_database`): the row is present before and gone after. -/
theorem C3_counterexample :
    (⟨1, "Test Category", "My Shop", "2024-05-01 10:00:00", none, none⟩ : ResponseRow)
      ∈ (⟨[⟨1, "Test Category", "My Shop", "2024-05-01 10:00:00", none, none⟩],
          [], 2, 1⟩ : Store).responses ∧
    (⟨1, "Test Category", "My Shop", "2024-05-01 10:00:00", none, none⟩ : ResponseRow)
      ∉ (test_connection
          ⟨[⟨1, "Test Category", "My Shop", "2024-05-01 10:00:00", none, none⟩],
           [], 2, 1⟩ []).1.responses := by
  decide

/-- Claim C3 as amended: no operation mutates an existing
`survey_responses` row, and no operation other than `test_connection`
(also run by `init_database`) deletes one; `test_connection` deletes only
rows whose category is "Test Category", so every row with any other category
survives every operation. -/
theorem C3_amended_rows_survive_except_test_category :
    (∀ (st : Store) (fl : List Bool) (c m t : String)
      (ans : List (String × String)) (lat lng : Option String),
      st.responses.IsPrefix
        (save_survey st fl c m t ans lat lng).1.responses) ∧
    (∀ (st : Store) (fl : List Bool), ∀ r ∈ st.responses,
      r.category ≠ "Test Category" → r ∈ (test_connection st fl).1.responses) ∧
    (∀ (st : Store) (fl : List Bool), ∀ r ∈ st.responses,
      r.category ≠ "Test Category" → r ∈ (init_database st fl).1.responses) := by
  have hsave : ∀ (st : Store) (fl : List Bool) (c m t : String)
      (ans : List (String × String)) (lat lng : Option String),
      st.responses.IsPrefix (save_survey st fl c m t ans lat lng).1.responses := by
    intro st fl c m t ans lat lng
    rcases hf : takeFail fl with ⟨f0, fl'⟩
    cases f0
    · by_cases h : st.nextRespId ≠ 0
      · simp only [save_survey, hf, if_neg Bool.false_ne_true, if_pos h,
          insertAnswersLoop_responses]
        exact List.prefix_append _ _
      · simp only [save_survey, hf, if_neg Bool.false_ne_true, if_neg h]
        exact List.prefix_append _ _
    · simp [save_survey, hf]
  have htest : ∀ (st : Store) (fl : List Bool), ∀ r ∈ st.responses,
      r.category ≠ "Test Category" → r ∈ (test_connection st fl).1.responses := by
    intro st fl r hr hc
    have hfil : ∀ l : List ResponseRow, r ∈ l →
        r ∈ l.filter (fun x => x.category ≠ "Test Category") := by
      intro l h
      exact List.mem_filter.mpr ⟨h, by simpa using hc⟩
    rcases hf0 : takeFail fl with ⟨f0, fl1⟩
    rcases hf1 : takeFail fl1 with ⟨f1, fl2⟩
    rcases hf2 : takeFail fl2 with ⟨f2, fl3⟩
    cases f0
    · -- probe INSERT succeeds: st1 appends the test row
      cases f1
      · -- SELECT succeeds
        rcases hl : ((st.responses ++ [testRow st.nextRespId]).filter
            (fun r => r.category = "Test Category")).map ResponseRow.id
            with _ | ⟨a, as⟩
        · simp [-List.filter_append, -List.map_append, test_connection,
            hf0, hf1, hl, hr, hc]
        · cases f2 <;>
            simp [-List.filter_append, -List.map_append, test_connection,
              hf0, hf1, hf2, hl, hr, hc]
      · -- SELECT fails: result is None, falsy
        simp [-List.filter_append, -List.map_append, test_connection,
          hf0, hf1, hr, hc]
    · -- probe INSERT fails: st1 = st
      cases f1
      · rcases hl : (st.responses.filter
            (fun r => r.category = "Test Category")).map ResponseRow.id
            with _ | ⟨a, as⟩
        · simp [-List.filter_append, -List.map_append, test_connection,
            hf0, hf1, hl, hr, hc]
        · cases f2 <;>
            simp [-List.filter_append, -List.map_append, test_connection,
              hf0, hf1, hf2, hl, hr, hc]
      · simp [-List.filter_append, -List.map_append, test_connection,
          hf0, hf1, hr, hc]
  refine ⟨hsave, htest, ?_⟩
  intro st fl r hr hc
  rcases hg0 : takeFail fl with ⟨g0, gl1⟩
  rcases hg1 : takeFail gl1 with ⟨g1, gl2⟩
  unfold init_database
  simp only [hg0, hg1]
  exact htest st gl2 r hr hc

/-- Witness for the amended C3: a stored response of another category
survives `test_connection`. -/
theorem C3_amended_rows_survive_except_test_category_witness :
    (⟨1, "Grocery", "Shop", "t", none, none⟩ : ResponseRow)
      ∈ (⟨[⟨1, "Grocery", "Shop", "t", none, none⟩], [], 2, 1⟩ : Store).responses ∧
    ("Grocery" : String) ≠ "Test Category" ∧
    (⟨1, "Grocery", "Shop", "t", none, none⟩ : ResponseRow)
      ∈ (test_connection ⟨[⟨1, "Grocery", "Shop", "t", none, none⟩], [], 2, 1⟩
          []).1.responses :=
  ⟨by decide, by decide,
    C3_amended_rows_survive_except_test_category.2.1 _ [] _ (by decide) (by decide)⟩

theorem dictInsert_not_mem {β : Type} (d : List (String × β)) (k : String)
    (v : β) (h : ∀ p ∈ d, p.1 ≠ k) : dictInsert d k v = d ++ [(k, v)] := by
  rw [dictInsert, if_neg]
  simp only [List.any_eq_true, not_exists, not_and]
  intro p hp
  simpa using h p hp

theorem dict_build_append {β : Type} (l : List (String × β)) :
    ∀ d : List (String × β), (l.map Prod.fst).Nodup →
      (∀ p ∈ d, p.1 ∉ l.map Prod.fst) →
      l.foldl (fun acc p => dictInsert acc p.1 p.2) d = d ++ l := by
  induction l with
  | nil => intro d _ _; simp
  | cons q rest ih =>
    intro d hnd hdisj
    have hq : ∀ p ∈ d, p.1 ≠ q.1 := by
      intro p hp
      have := hdisj p hp
      simp only [List.map_cons, List.mem_cons] at this
      exact fun hpq => this (Or.inl hpq)
    simp only [List.foldl_cons, dictInsert_not_mem d q.1 q.2 hq]
    have hnd2 : q.1 ∉ rest.map Prod.fst ∧ (rest.map Prod.fst).Nodup := by
      rw [List.map_cons, List.nodup_cons] at hnd
      exact hnd
    have hnd' : (rest.map Prod.fst).Nodup := hnd2.2
    have hq1 : q.1 ∉ rest.map Prod.fst := hnd2.1
    have hdisj' : ∀ p ∈ d ++ [(q.1, q.2)], p.1 ∉ rest.map Prod.fst := by
      intro p hp
      rcases List.mem_append.mp hp with h | h
      · intro hmem
        exact hdisj p h (by simp [hmem])
      · simp only [List.mem_singleton] at h
        subst h
        exact hq1
    have := ih (d ++ [(q.1, q.2)]) hnd' hdisj'
    rw [this]
    simp

theorem persistedAnswers_response_id (rid : Nat) (ans : List (String × String)) :
    ∀ (aid : Nat) (fl : List Bool) (a : AnswerRow),
      a ∈ persistedAnswers rid aid fl ans → a.response_id = rid := by
  induction ans with
  | nil => intro aid fl a ha; simp [persistedAnswers] at ha
  | cons qa rest ih =>
    intro aid fl a
    rw [persistedAnswers]
    rcases hf : takeFail fl with ⟨f, fl'⟩
    cases f
    · intro ha
      simp at ha
      rcases ha with h | h
      · subst h; rfl
      · exact ih _ _ a h
    · intro ha
      simp at ha
      exact ih _ _ a ha

theorem persistedAnswers_noFail_map (rid : Nat) (ans : List (String × String)) :
    ∀ aid : Nat,
      (persistedAnswers rid aid [] ans).map (fun a => (a.question, a.answer))
        = ans := by
  induction ans with
  | nil => intro aid; simp [persistedAnswers]
  | cons qa rest ih =>
    intro aid
    rw [persistedAnswers]
    simp [takeFail, ih]

theorem rowsToDict_map (rows : List AnswerRow) :
    rowsToDict rows
      = (rows.map (fun a => (a.question, a.answer))).foldl
          (fun d p => dictInsert d p.1 p.2) [] := by
  rw [rowsToDict, List.foldl_map]

/-- Claim C1: for a valid input triple, creating a survey (with no underlying
statement failing, i.e. the create succeeding) and reading the returned
identifier back with `get_response_details` yields a record whose category,
merchant name and answers mapping equal the inputs exactly. -/
theorem C1_create_then_get (st : Store) (hwf : st.WF)
    (category merchant_name timestamp : String) (hmn : merchant_name ≠ "")
    (answers : List (String × String)) (hnd : (answers.map Prod.fst).Nodup)
    (lat lng : Option String) :
    ∃ rid,
      (save_survey st [] category merchant_name timestamp answers lat lng).2
        = some rid ∧
      ∃ d,
        get_response_details
          (save_survey st [] category merchant_name timestamp answers lat lng).1
          [] rid = some d ∧
        d.category = category ∧ d.merchant_name = merchant_name ∧
        d.answers = answers := by
  obtain ⟨h1, hresp, hans, hnodup⟩ := hwf
  have hne : st.nextRespId ≠ 0 := by omega
  have hsave : save_survey st [] category merchant_name timestamp answers lat lng
      = (insertAnswersLoop st.nextRespId
          { st with
            responses := st.responses ++
              [⟨st.nextRespId, category, merchant_name, timestamp, lat, lng⟩],
            nextRespId := st.nextRespId + 1 } [] answers, some st.nextRespId) := by
    rw [save_survey]
    simp [takeFail, hne]
  have hresps : (insertAnswersLoop st.nextRespId
      { st with
        responses := st.responses ++
          [⟨st.nextRespId, category, merchant_name, timestamp, lat, lng⟩],
        nextRespId := st.nextRespId + 1 } [] answers).responses
      = st.responses ++
          [⟨st.nextRespId, category, merchant_name, timestamp, lat, lng⟩] := by
    rw [insertAnswersLoop_responses]
  have hanss : (insertAnswersLoop st.nextRespId
      { st with
        responses := st.responses ++
          [⟨st.nextRespId, category, merchant_name, timestamp, lat, lng⟩],
        nextRespId := st.nextRespId + 1 } [] answers).answers
      = st.answers ++ persistedAnswers st.nextRespId st.nextAnsId [] answers := by
    rw [insertAnswersLoop_answers]
  have h0resp : st.responses.filter (fun r => r.id = st.nextRespId) = [] := by
    rw [List.filter_eq_nil_iff]
    intro a ha
    have := hresp a ha
    simp only [decide_eq_true_eq]
    omega
  have h0ans : st.answers.filter (fun a => a.response_id = st.nextRespId) = [] := by
    rw [List.filter_eq_nil_iff]
    intro a ha
    have := hans a ha
    simp only [decide_eq_true_eq]
    omega
  have hpa : (persistedAnswers st.nextRespId st.nextAnsId [] answers).filter
      (fun a => a.response_id = st.nextRespId)
      = persistedAnswers st.nextRespId st.nextAnsId [] answers := by
    rw [List.filter_eq_self]
    intro a ha
    simp only [decide_eq_true_eq]
    exact persistedAnswers_response_id _ _ _ _ a ha
  have hdict : rowsToDict (persistedAnswers st.nextRespId st.nextAnsId [] answers)
      = answers := by
    rw [rowsToDict_map, persistedAnswers_noFail_map]
    have := dict_build_append answers [] hnd (by simp)
    simpa using this
  refine ⟨st.nextRespId, by rw [hsave], ?_⟩
  rw [hsave]
  refine ⟨⟨st.nextRespId, category, merchant_name, timestamp, lat, lng, answers⟩,
    ?_, rfl, rfl, rfl⟩
  simp [get_response_details, takeFail, hresps, hanss, h0resp, h0ans, hpa, hdict]

/-- Witness for C1 at a concrete store and submission. -/
theorem C1_create_then_get_witness :
    (⟨[], [], 1, 1⟩ : Store).WF ∧
    ("Al-Noor Store" : String) ≠ "" ∧
    (([("Do you accept cards?", "Yes")] : List (String × String)).map
      Prod.fst).Nodup ∧
    (∃ rid,
      (save_survey ⟨[], [], 1, 1⟩ [] "Retail" "Al-Noor Store" "2024-01-01"
        [("Do you accept cards?", "Yes")] none none).2 = some rid ∧
      ∃ d,
        get_response_details
          (save_survey ⟨[], [], 1, 1⟩ [] "Retail" "Al-Noor Store" "2024-01-01"
            [("Do you accept cards?", "Yes")] none none).1 [] rid = some d ∧
        d.category = "Retail" ∧ d.merchant_name = "Al-Noor Store" ∧
        d.answers = [("Do you accept cards?", "Yes")]) :=
  ⟨by decide, by decide, by decide,
    C1_create_then_get ⟨[], [], 1, 1⟩ (by decide) "Retail" "Al-Noor Store"
      "2024-01-01" (by decide) [("Do you accept cards?", "Yes")] (by decide)
      none none⟩

theorem get_recent_responses_noFail (st : Store) (n : Nat) :
    get_recent_responses st [] n
      = ((sqlOrderByIdDesc st.responses).take n).map toRecent := by
  rw [get_recent_responses]
  rcases h : (sqlOrderByIdDesc st.responses).take n with _ | ⟨x, xs⟩
  · simp [takeFail, h]
  · simp [takeFail, h]

/-- Claim C4: for every limit `n`, `get_recent_responses` returns at most `n`
rows, they are a prefix of the (unique) descending-by-id arrangement of all
stored responses, and they are ordered by identifier descending.  The
returned rows carry only the six header fields, never answers. -/
theorem C4_list_recent_prefix_of_descending (st : Store) (hwf : st.WF) (n : Nat)
    (l : List ResponseRow) (hperm : l.Perm st.responses)
    (hsort : l.Pairwise (fun a b => b.id < a.id)) :
    (get_recent_responses st [] n).length ≤ n ∧
    (get_recent_responses st [] n).IsPrefix (l.map toRecent) ∧
    (get_recent_responses st [] n).Pairwise (fun a b => b.id < a.id) := by
  obtain ⟨h1, hresp, hans, hnodup⟩ := hwf
  haveI : IsTotal ResponseRow (fun a b => b.id ≤ a.id) :=
    ⟨fun a b => le_total b.id a.id⟩
  haveI : IsTrans ResponseRow (fun a b => b.id ≤ a.id) :=
    ⟨fun a b c h1 h2 => le_trans h2 h1⟩
  haveI : IsAntisymm ResponseRow (fun a b => b.id < a.id) :=
    ⟨fun a b h1 h2 => absurd (lt_trans h1 h2) (lt_irrefl _)⟩
  have hperm_s : (sqlOrderByIdDesc st.responses).Perm st.responses :=
    List.perm_insertionSort _ _
  have hsorted_s : (sqlOrderByIdDesc st.responses).Sorted
      (fun a b => b.id ≤ a.id) :=
    List.sorted_insertionSort _ _
  have hnodup_s : ((sqlOrderByIdDesc st.responses).map ResponseRow.id).Nodup :=
    ((hperm_s.map ResponseRow.id).symm).nodup hnodup
  have hne_s : (sqlOrderByIdDesc st.responses).Pairwise
      (fun a b => a.id ≠ b.id) := by
    rw [List.Nodup, List.pairwise_map] at hnodup_s
    exact hnodup_s
  have hpair_s : (sqlOrderByIdDesc st.responses).Pairwise
      (fun a b => b.id < a.id) :=
    (hsorted_s.and hne_s).imp
      (fun h => lt_of_le_of_ne h.1 (fun heq => h.2 heq.symm))
  have huniq : sqlOrderByIdDesc st.responses = l :=
    List.eq_of_perm_of_sorted (hperm_s.trans hperm.symm) hpair_s hsort
  have hval : get_recent_responses st [] n = ((l.take n).map toRecent) := by
    rw [get_recent_responses_noFail, huniq]
  refine ⟨?_, ?_, ?_⟩
  · rw [hval]
    simp only [List.length_map, List.length_take]
    omega
  · rw [hval, List.map_take]
    exact List.take_prefix _ _
  · rw [hval]
    have htake : (l.take n).Pairwise (fun a b => b.id < a.id) :=
      List.Pairwise.sublist (List.take_sublist n l) hsort
    rw [List.pairwise_map]
    exact htake.imp (fun h => h)

/-- Witness for C4 at a concrete two-row store with limit 1. -/
theorem C4_list_recent_prefix_of_descending_witness :
    (⟨[⟨1, "a", "m1", "t1", none, none⟩, ⟨2, "b", "m2", "t2", none, none⟩],
        [], 3, 1⟩ : Store).WF ∧
    ([⟨2, "b", "m2", "t2", none, none⟩, ⟨1, "a", "m1", "t1", none, none⟩]
        : List ResponseRow).Perm
      (⟨[⟨1, "a", "m1", "t1", none, none⟩, ⟨2, "b", "m2", "t2", none, none⟩],
        [], 3, 1⟩ : Store).responses ∧
    ([⟨2, "b", "m2", "t2", none, none⟩, ⟨1, "a", "m1", "t1", none, none⟩]
        : List ResponseRow).Pairwise (fun a b => b.id < a.id) ∧
    ((get_recent_responses
        ⟨[⟨1, "a", "m1", "t1", none, none⟩, ⟨2, "b", "m2", "t2", none, none⟩],
         [], 3, 1⟩ [] 1).length ≤ 1 ∧
     (get_recent_responses
        ⟨[⟨1, "a", "m1", "t1", none, none⟩, ⟨2, "b", "m2", "t2", none, none⟩],
         [], 3, 1⟩ [] 1).IsPrefix
       (([⟨2, "b", "m2", "t2", none, none⟩, ⟨1, "a", "m1", "t1", none, none⟩]
          : List ResponseRow).map toRecent) ∧
     (get_recent_responses
        ⟨[⟨1, "a", "m1", "t1", none, none⟩, ⟨2, "b", "m2", "t2", none, none⟩],
         [], 3, 1⟩ [] 1).Pairwise (fun a b => b.id < a.id)) :=
  ⟨by decide, by decide, by decide,
    C4_list_recent_prefix_of_descending _ (by decide) 1 _ (by decide) (by decide)⟩

theorem dictGet_append {β : Type} (d1 d2 : List (String × β)) (k : String) :
    dictGet (d1 ++ d2) k
      = match dictGet d1 k with
        | some v => some v
        | none => dictGet d2 k := by
  induction d1 with
  | nil => simp [dictGet]
  | cons p rest ih =>
    by_cases h : p.1 = k
    · simp [dictGet, h]
    · simp [dictGet, h, ih]

theorem dictGet_none_iff {β : Type} (d : List (String × β)) (k : String) :
    dictGet d k = none ↔ k ∉ d.map Prod.fst := by
  induction d with
  | nil => simp [dictGet]
  | cons p rest ih =>
    simp only [dictGet, List.map_cons, List.mem_cons]
    by_cases h : p.1 = k
    · subst h
      simp
    · rw [if_neg h, ih]
      constructor
      · intro hk hor
        rcases hor with heq | hmem
        · exact h heq.symm
        · exact hk hmem
      · intro hk hmem
        exact hk (Or.inr hmem)

theorem dictGet_map_overwrite {β : Type} (k : String) (v : β) :
    ∀ d : List (String × β), d.any (fun p => p.1 = k) = true →
      dictGet (d.map (fun p => if p.1 = k then (k, v) else p)) k = some v := by
  intro d
  induction d with
  | nil => simp
  | cons p rest ih =>
    intro hany
    by_cases h : p.1 = k
    · simp [dictGet, h]
    · have : rest.any (fun p => p.1 = k) = true := by
        simp only [List.any_cons, Bool.or_eq_true] at hany
        rcases hany with h1 | h1
        · exact absurd (of_decide_eq_true h1) h
        · exact h1
      simp [dictGet, h, ih this]

theorem dictGet_map_keep {β : Type} (k k' : String) (v : β) (hne : k' ≠ k) :
    ∀ d : List (String × β),
      dictGet (d.map (fun p => if p.1 = k' then (k', v) else p)) k
        = dictGet d k := by
  intro d
  induction d with
  | nil => simp [dictGet]
  | cons p rest ih =>
    by_cases h : p.1 = k'
    · have hpk : p.1 ≠ k := by rw [h]; exact hne
      simp [dictGet, h, hpk, hne, ih]
    · have hkk : k ≠ k' := fun heq => hne heq.symm
      by_cases h2 : p.1 = k
      · simp [dictGet, h, h2, hkk]
      · simp [dictGet, h, h2, ih]

theorem dictGet_dictInsert_self {β : Type} (d : List (String × β)) (k : String)
    (v : β) : dictGet (dictInsert d k v) k = some v := by
  rw [dictInsert]
  by_cases h : d.any (fun p => p.1 = k) = true
  · rw [if_pos h]
    exact dictGet_map_overwrite k v d h
  · rw [if_neg h]
    rw [dictGet_append]
    have hnone : dictGet d k = none := by
      rw [dictGet_none_iff]
      intro hmem
      apply h
      rw [List.any_eq_true]
      rcases List.mem_map.mp hmem with ⟨p, hp, hpk⟩
      exact ⟨p, hp, by simp [hpk]⟩
    rw [hnone]
    simp [dictGet]

theorem dictGet_dictInsert_ne {β : Type} (d : List (String × β)) (k k' : String)
    (v : β) (hne : k' ≠ k) : dictGet (dictInsert d k' v) k = dictGet d k := by
  rw [dictInsert]
  by_cases h : d.any (fun p => p.1 = k') = true
  · rw [if_pos h]
    exact dictGet_map_keep k k' v hne d
  · rw [if_neg h]
    rw [dictGet_append]
    rcases hd : dictGet d k with _ | w
    · simp [dictGet, hne]
    · rfl

theorem dictGet_foldl_untouched {β : Type} (k : String) :
    ∀ (l : List (String × β)) (d : List (String × β)),
      k ∉ l.map Prod.fst →
      dictGet (l.foldl (fun acc p => dictInsert acc p.1 p.2) d) k
        = dictGet d k := by
  intro l
  induction l with
  | nil => intro d _; rfl
  | cons p rest ih =>
    intro d hk
    simp only [List.map_cons, List.mem_cons, not_or] at hk
    rw [List.foldl_cons, ih _ hk.2, dictGet_dictInsert_ne _ _ _ _ (fun h => hk.1 h.symm)]

theorem dictGet_foldl_mem {β : Type} (k : String) (v : β) :
    ∀ (l : List (String × β)) (d : List (String × β)),
      (k, v) ∈ l → (l.map Prod.fst).Nodup →
      dictGet (l.foldl (fun acc p => dictInsert acc p.1 p.2) d) k = some v := by
  intro l
  induction l with
  | nil => intro d h _; simp at h
  | cons p rest ih =>
    intro d hmem hnd
    rw [List.map_cons, List.nodup_cons] at hnd
    rcases List.mem_cons.mp hmem with heq | hmem'
    · subst heq
      rw [List.foldl_cons,
        dictGet_foldl_untouched k rest _ hnd.1,
        dictGet_dictInsert_self]
    · have hkp : k ≠ p.1 := by
        intro heq
        apply hnd.1
        rw [← heq]
        exact List.mem_map.mpr ⟨(k, v), hmem', rfl⟩
      rw [List.foldl_cons]
      exact ih _ hmem' hnd.2

theorem contains_iff_mem (l : List String) (k : String) :
    l.contains k = true ↔ k ∈ l :=
  List.elem_iff

theorem contains_append (l1 l2 : List String) (k : String) :
    (l1 ++ l2).contains k = (l1.contains k || l2.contains k) := by
  simp

theorem answersCells_keys (ans : List (String × String)) :
    (ans.map (fun qa => (qa.1, Cell.str qa.2))).map Prod.fst
      = ans.map Prod.fst := by
  induction ans with
  | nil => rfl
  | cons qa rest ih => simp [ih]

theorem prepare_row_map (it : SurveyItem) :
    prepare_row it
      = (it.answers.map (fun qa => (qa.1, Cell.str qa.2))).foldl
          (fun d p => dictInsert d p.1 p.2) (baseRow it) := by
  rw [prepare_row, List.foldl_map]

theorem baseRow_keys (it : SurveyItem) :
    (baseRow it).map Prod.fst = fixedCols := rfl

theorem baseRow_fst_mem (it : SurveyItem) :
    ∀ p ∈ baseRow it, p.1 ∈ fixedCols := by
  intro p hp
  have : p.1 ∈ (baseRow it).map Prod.fst := List.mem_map.mpr ⟨p, hp, rfl⟩
  rwa [baseRow_keys] at this

theorem prepare_row_append (it : SurveyItem)
    (hdisj : ∀ qa ∈ it.answers, qa.1 ∉ fixedCols)
    (hnd : (it.answers.map Prod.fst).Nodup) :
    prepare_row it
      = baseRow it ++ it.answers.map (fun qa => (qa.1, Cell.str qa.2)) := by
  rw [prepare_row_map]
  apply dict_build_append
  · rw [answersCells_keys]
    exact hnd
  · intro p hp hmem
    rw [answersCells_keys] at hmem
    rcases List.mem_map.mp hmem with ⟨qa, hqa, hqak⟩
    exact hdisj qa hqa (hqak ▸ baseRow_fst_mem it p hp)

theorem accuKeys_cons {β : Type} (acc : List String) (kv : String × β)
    (rest : List (String × β)) :
    accuKeys acc (kv :: rest)
      = accuKeys (if acc.contains kv.1 then acc else acc ++ [kv.1]) rest := rfl

theorem accuKeys_append {β : Type} (acc : List String)
    (r1 r2 : List (String × β)) :
    accuKeys acc (r1 ++ r2) = accuKeys (accuKeys acc r1) r2 := by
  simp [accuKeys, List.foldl_append]

theorem accuKeys_contained {β : Type} :
    ∀ (row : List (String × β)) (acc : List String),
      (∀ kv ∈ row, kv.1 ∈ acc) → accuKeys acc row = acc := by
  intro row
  induction row with
  | nil => intro acc _; rfl
  | cons kv rest ih =>
    intro acc h
    rw [accuKeys_cons, if_pos ((contains_iff_mem _ _).mpr (h kv (by simp)))]
    exact ih acc (fun p hp => h p (by simp [hp]))

theorem accuKeys_mono {β : Type} :
    ∀ (row : List (String × β)) (acc : List String) (x : String),
      x ∈ acc → x ∈ accuKeys acc row := by
  intro row
  induction row with
  | nil => intro acc x h; exact h
  | cons kv rest ih =>
    intro acc x h
    rw [accuKeys_cons]
    by_cases hc : acc.contains kv.1 = true
    · rw [if_pos hc]; exact ih _ _ h
    · rw [if_neg hc]; exact ih _ _ (List.mem_append_left _ h)

theorem accuKeys_key_mem {β : Type} :
    ∀ (row : List (String × β)) (acc : List String) (kv : String × β),
      kv ∈ row → kv.1 ∈ accuKeys acc row := by
  intro row
  induction row with
  | nil => intro _ _ h; simp at h
  | cons kv0 rest ih =>
    intro acc kv h
    rw [accuKeys_cons]
    rcases List.mem_cons.mp h with heq | h'
    · subst heq
      by_cases hc : acc.contains kv.1 = true
      · rw [if_pos hc]
        exact accuKeys_mono rest _ _ ((contains_iff_mem _ _).mp hc)
      · rw [if_neg hc]
        exact accuKeys_mono rest _ _ (by simp)
    · by_cases hc : acc.contains kv0.1 = true
      · rw [if_pos hc]; exact ih _ _ h'
      · rw [if_neg hc]; exact ih _ _ h'

theorem accuKeys_nodup {β : Type} :
    ∀ (row : List (String × β)) (acc : List String),
      acc.Nodup → (accuKeys acc row).Nodup := by
  intro row
  induction row with
  | nil => intro acc h; exact h
  | cons kv rest ih =>
    intro acc h
    rw [accuKeys_cons]
    by_cases hc : acc.contains kv.1 = true
    · rw [if_pos hc]; exact ih _ h
    · rw [if_neg hc]
      refine ih _ ?_
      have hnm : kv.1 ∉ acc := fun hm => hc ((contains_iff_mem _ _).mpr hm)
      simp [List.nodup_append, h, hnm]

theorem colsFold_mono {β : Type} :
    ∀ (rows : List (List (String × β))) (acc : List String) (x : String),
      x ∈ acc → x ∈ rows.foldl accuKeys acc := by
  intro rows
  induction rows with
  | nil => intro acc x h; exact h
  | cons r rest ih =>
    intro acc x h
    rw [List.foldl_cons]
    exact ih _ _ (accuKeys_mono r acc x h)

theorem colsFold_key_mem {β : Type} :
    ∀ (rows : List (List (String × β))) (acc : List String)
      (row : List (String × β)) (kv : String × β),
      row ∈ rows → kv ∈ row → kv.1 ∈ rows.foldl accuKeys acc := by
  intro rows
  induction rows with
  | nil => intro _ _ _ h; simp at h
  | cons r rest ih =>
    intro acc row kv hrow hkv
    rw [List.foldl_cons]
    rcases List.mem_cons.mp hrow with heq | h'
    · subst heq
      exact colsFold_mono rest _ _ (accuKeys_key_mem row acc kv hkv)
    · exact ih _ row kv h' hkv

theorem colsFold_nodup {β : Type} :
    ∀ (rows : List (List (String × β))) (acc : List String),
      acc.Nodup → (rows.foldl accuKeys acc).Nodup := by
  intro rows
  induction rows with
  | nil => intro acc h; exact h
  | cons r rest ih =>
    intro acc h
    rw [List.foldl_cons]
    exact ih _ (accuKeys_nodup r acc h)

theorem pdDataFrame_columns (rows : List (List (String × Cell))) :
    (pdDataFrame rows).columns = rows.foldl accuKeys [] := rfl

theorem pdDataFrame_cells (rows : List (List (String × Cell))) :
    (pdDataFrame rows).cells
      = rows.map (fun row =>
          (rows.foldl accuKeys []).map
            (fun c => (dictGet row c).getD Cell.na)) := rfl

theorem zip_map_self {γ : Type} (cols : List String) (g : String → γ) :
    cols.zip (cols.map g) = cols.map (fun c => (c, g c)) := by
  induction cols with
  | nil => rfl
  | cons c rest ih => simp [ih]

theorem dictGet_graph {γ : Type} (g : String → γ) :
    ∀ (cols : List String) (q : String), q ∈ cols →
      dictGet (cols.map (fun c => (c, g c))) q = some (g q) := by
  intro cols
  induction cols with
  | nil => intro q h; simp at h
  | cons c rest ih =>
    intro q hq
    by_cases h : c = q
    · subst h
      simp [dictGet]
    · rcases List.mem_cons.mp hq with heq | h'
      · exact absurd heq.symm h
      · simp [dictGet, h, ih q h']

theorem pdDataFrame_cell_formula (rows : List (List (String × Cell))) (i : Nat)
    (row : List (String × Cell)) (q : String) (hi : rows[i]? = some row)
    (hq : q ∈ (pdDataFrame rows).columns) :
    (pdDataFrame rows).cell i q = some ((dictGet row q).getD Cell.na) := by
  rw [pdDataFrame_columns] at hq
  rw [DataFrame.cell, pdDataFrame_cells, pdDataFrame_columns,
    List.getElem?_map, hi]
  dsimp only [Option.map, Option.bind]
  rw [zip_map_self, dictGet_graph _ _ _ hq]

theorem accuKeys_answers :
    ∀ (ans : List (String × String)) (q : List String),
      (∀ qa ∈ ans, qa.1 ∉ fixedCols) →
      accuKeys (fixedCols ++ q) (ans.map (fun qa => (qa.1, Cell.str qa.2)))
        = fixedCols ++
          ans.foldl (fun a qa => if a.contains qa.1 then a else a ++ [qa.1]) q := by
  intro ans
  induction ans with
  | nil => intro q _; rfl
  | cons qa rest ih =>
    intro q hdisj
    have hd : qa.1 ∉ fixedCols := hdisj qa (by simp)
    have hdisj' : ∀ p ∈ rest, p.1 ∉ fixedCols := fun p hp => hdisj p (by simp [hp])
    rw [List.map_cons, accuKeys_cons, List.foldl_cons]
    dsimp only
    have hfc : fixedCols.contains qa.1 = false := by
      cases hb : fixedCols.contains qa.1
      · rfl
      · exact absurd ((contains_iff_mem _ _).mp hb) hd
    rw [contains_append, hfc, Bool.false_or]
    by_cases hqc : q.contains qa.1 = true
    · rw [if_pos hqc, if_pos hqc]
      exact ih q hdisj'
    · rw [if_neg hqc, if_neg hqc, List.append_assoc]
      exact ih (q ++ [qa.1]) hdisj'

theorem colsFold_data :
    ∀ (data : List SurveyItem) (q : List String),
      (∀ it ∈ data, ∀ qa ∈ it.answers, qa.1 ∉ fixedCols) →
      (∀ it ∈ data, (it.answers.map Prod.fst).Nodup) →
      (data.map prepare_row).foldl accuKeys (fixedCols ++ q)
        = fixedCols ++
          data.foldl (fun acc it =>
            it.answers.foldl (fun a qa => if a.contains qa.1 then a else a ++ [qa.1])
              acc) q := by
  intro data
  induction data with
  | nil => intro q _ _; rfl
  | cons it rest ih =>
    intro q hdisj hnd
    rw [List.map_cons, List.foldl_cons, List.foldl_cons]
    have hit : accuKeys (fixedCols ++ q) (prepare_row it)
        = fixedCols ++
            it.answers.foldl
              (fun a qa => if a.contains qa.1 then a else a ++ [qa.1]) q := by
      rw [prepare_row_append it (hdisj it (by simp)) (hnd it (by simp)),
        accuKeys_append,
        accuKeys_contained (baseRow it) _
          (fun kv hkv => List.mem_append_left _ (baseRow_fst_mem it kv hkv)),
        accuKeys_answers it.answers q (hdisj it (by simp))]
    rw [hit]
    exact ih _ (fun i hi => hdisj i (by simp [hi])) (fun i hi => hnd i (by simp [hi]))

theorem prepare_survey_dataframe_columns (data : List SurveyItem)
    (hne : data ≠ [])
    (hdisj : ∀ it ∈ data, ∀ qa ∈ it.answers, qa.1 ∉ fixedCols)
    (hnd : ∀ it ∈ data, (it.answers.map Prod.fst).Nodup) :
    (prepare_survey_dataframe data).columns = fixedCols ++ questionUnion data := by
  rcases data with _ | ⟨it0, rest⟩
  · exact absurd rfl hne
  rw [prepare_survey_dataframe, pdDataFrame_columns, List.map_cons,
    List.foldl_cons]
  have h0 : accuKeys [] (prepare_row it0)
      = fixedCols ++
          it0.answers.foldl
            (fun a qa => if a.contains qa.1 then a else a ++ [qa.1]) [] := by
    rw [prepare_row_append it0 (hdisj it0 (by simp)) (hnd it0 (by simp)),
      accuKeys_append]
    have hbase : accuKeys ([] : List String) (baseRow it0) = fixedCols := rfl
    rw [hbase]
    have := accuKeys_answers it0.answers [] (hdisj it0 (by simp))
    simpa using this
  rw [h0,
    colsFold_data rest _ (fun i hi => hdisj i (by simp [hi]))
      (fun i hi => hnd i (by simp [hi])),
    questionUnion, List.foldl_cons]

theorem qfold_sub :
    ∀ (ans : List (String × String)) (acc : List String) (q : String),
      q ∈ ans.foldl (fun a qa => if a.contains qa.1 then a else a ++ [qa.1]) acc →
      q ∈ acc ∨ q ∈ ans.map Prod.fst := by
  intro ans
  induction ans with
  | nil => intro acc q h; exact Or.inl h
  | cons qa rest ih =>
    intro acc q h
    rw [List.foldl_cons] at h
    rcases ih _ q h with h' | h'
    · by_cases hc : acc.contains qa.1 = true
      · rw [if_pos hc] at h'
        exact Or.inl h'
      · rw [if_neg hc] at h'
        rcases List.mem_append.mp h' with h2 | h2
        · exact Or.inl h2
        · simp only [List.mem_singleton] at h2
          subst h2
          exact Or.inr (by simp)
    · exact Or.inr (by simp [h'])

theorem questionUnion_sub :
    ∀ (data : List SurveyItem) (acc0 : List String) (q : String),
      q ∈ data.foldl (fun acc item =>
        item.answers.foldl
          (fun a qa => if a.contains qa.1 then a else a ++ [qa.1]) acc) acc0 →
      q ∈ acc0 ∨ ∃ it ∈ data, q ∈ it.answers.map Prod.fst := by
  intro data
  induction data with
  | nil => intro acc0 q h; exact Or.inl h
  | cons it rest ih =>
    intro acc0 q h
    rw [List.foldl_cons] at h
    rcases ih _ q h with h' | h'
    · rcases qfold_sub it.answers acc0 q h' with h2 | h2
      · exact Or.inl h2
      · exact Or.inr ⟨it, by simp, h2⟩
    · rcases h' with ⟨it', hit', hq⟩
      exact Or.inr ⟨it', by simp [hit'], hq⟩

/-- Claim C5 as amended: for a non-empty input whose question texts avoid the
fixed column names, the flattened table has one row per response, columns =
the six fixed names followed by one column per distinct question text (in
first-appearance order), and a (response, question) pair that was not asked
yields the NaN cell, which renders as the empty string. -/
theorem C5_amended_flatten_shape (data : List SurveyItem) (hne : data ≠ [])
    (hdisj : ∀ it ∈ data, ∀ qa ∈ it.answers, qa.1 ∉ fixedCols)
    (hnd : ∀ it ∈ data, (it.answers.map Prod.fst).Nodup) :
    (prepare_survey_dataframe data).columns = fixedCols ++ questionUnion data ∧
    (prepare_survey_dataframe data).cells.length = data.length ∧
    (∀ (i : Nat) (it : SurveyItem), data[i]? = some it →
      ∀ q ∈ questionUnion data, q ∉ it.answers.map Prod.fst →
      (prepare_survey_dataframe data).cell i q = some Cell.na) ∧
    Cell.render Cell.na = "" := by
  have hcols := prepare_survey_dataframe_columns data hne hdisj hnd
  refine ⟨hcols, ?_, ?_, rfl⟩
  · rw [prepare_survey_dataframe, pdDataFrame_cells]
    simp
  · intro i it hi q hqU hqa
    have hit : it ∈ data := List.getElem?_mem hi
    have hrow : (data.map prepare_row)[i]? = some (prepare_row it) := by
      rw [List.getElem?_map, hi]
      rfl
    have hqcols : q ∈ (prepare_survey_dataframe data).columns := by
      rw [hcols]
      exact List.mem_append_right _ hqU
    rw [prepare_survey_dataframe] at hqcols ⊢
    rw [pdDataFrame_cell_formula _ i (prepare_row it) q hrow hqcols]
    have hqf : q ∉ fixedCols := by
      intro hqf
      rcases questionUnion_sub data [] q (by rwa [questionUnion] at hqU)
        with h | ⟨it', hit', hq'⟩
      · simp at h
      · rcases List.mem_map.mp hq' with ⟨qa, hqa', hqak⟩
        exact hdisj it' hit' qa hqa' (hqak ▸ hqf)
    have hnone : dictGet (prepare_row it) q = none := by
      rw [dictGet_none_iff, prepare_row_append it (hdisj it hit) (hnd it hit),
        List.map_append, baseRow_keys, answersCells_keys, List.mem_append]
      push_neg
      exact ⟨hqf, hqa⟩
    rw [hnone]
    rfl

/-- Claim C5 counterexample: a single response answering a question whose
text equals the fixed column name "ID" produces no additional column — the
column set is exactly the six fixed names although the question union is
nonempty, contradicting "one additional column per distinct question text in
the union". -/
theorem C5_counterexample :
    (prepare_survey_dataframe
        [⟨1, "Retail", "Shop", "2024-01-01", none, none, [("ID", "Yes")]⟩]).columns
      = fixedCols ∧
    questionUnion
        [⟨1, "Retail", "Shop", "2024-01-01", none, none, [("ID", "Yes")]⟩]
      = ["ID"] ∧
    (prepare_survey_dataframe
        [⟨1, "Retail", "Shop", "2024-01-01", none, none, [("ID", "Yes")]⟩]).columns.length
      ≠ fixedCols.length + 1 := by
  refine ⟨by decide, by decide, by decide⟩

/-- Witness for the amended C5 at a concrete two-response input with
disjoint question sets. -/
theorem C5_amended_flatten_shape_witness :
    (([⟨1, "c1", "m1", "t1", none, none, [("A", "x"), ("B", "y")]⟩,
       ⟨2, "c2", "m2", "t2", none, none, [("A", "u"), ("C", "v")]⟩]
        : List SurveyItem) ≠ []) ∧
    (∀ it ∈ ([⟨1, "c1", "m1", "t1", none, none, [("A", "x"), ("B", "y")]⟩,
       ⟨2, "c2", "m2", "t2", none, none, [("A", "u"), ("C", "v")]⟩]
        : List SurveyItem), ∀ qa ∈ it.answers, qa.1 ∉ fixedCols) ∧
    (∀ it ∈ ([⟨1, "c1", "m1", "t1", none, none, [("A", "x"), ("B", "y")]⟩,
       ⟨2, "c2", "m2", "t2", none, none, [("A", "u"), ("C", "v")]⟩]
        : List SurveyItem), (it.answers.map Prod.fst).Nodup) ∧
    ((prepare_survey_dataframe
        [⟨1, "c1", "m1", "t1", none, none, [("A", "x"), ("B", "y")]⟩,
         ⟨2, "c2", "m2", "t2", none, none, [("A", "u"), ("C", "v")]⟩]).columns
      = fixedCols ++ questionUnion
          [⟨1, "c1", "m1", "t1", none, none, [("A", "x"), ("B", "y")]⟩,
           ⟨2, "c2", "m2", "t2", none, none, [("A", "u"), ("C", "v")]⟩] ∧
     (prepare_survey_dataframe
        [⟨1, "c1", "m1", "t1", none, none, [("A", "x"), ("B", "y")]⟩,
         ⟨2, "c2", "m2", "t2", none, none, [("A", "u"), ("C", "v")]⟩]).cells.length
      = ([⟨1, "c1", "m1", "t1", none, none, [("A", "x"), ("B", "y")]⟩,
          ⟨2, "c2", "m2", "t2", none, none, [("A", "u"), ("C", "v")]⟩]
          : List SurveyItem).length ∧
     (∀ (i : Nat) (it : SurveyItem),
        ([⟨1, "c1", "m1", "t1", none, none, [("A", "x"), ("B", "y")]⟩,
          ⟨2, "c2", "m2", "t2", none, none, [("A", "u"), ("C", "v")]⟩]
          : List SurveyItem)[i]? = some it →
        ∀ q ∈ questionUnion
            [⟨1, "c1", "m1", "t1", none, none, [("A", "x"), ("B", "y")]⟩,
             ⟨2, "c2", "m2", "t2", none, none, [("A", "u"), ("C", "v")]⟩],
          q ∉ it.answers.map Prod.fst →
          (prepare_survey_dataframe
            [⟨1, "c1", "m1", "t1", none, none, [("A", "x"), ("B", "y")]⟩,
             ⟨2, "c2", "m2", "t2", none, none, [("A", "u"), ("C", "v")]⟩]).cell i q
            = some Cell.na) ∧
     Cell.render Cell.na = "") :=
  ⟨by decide, by decide, by decide,
    C5_amended_flatten_shape _ (by decide) (by decide) (by decide)⟩

theorem dictGet_some_mem {β : Type} :
    ∀ (d : List (String × β)) (k : String) (v : β),
      dictGet d k = some v → (k, v) ∈ d := by
  intro d
  induction d with
  | nil => intro k v h; simp [dictGet] at h
  | cons p rest ih =>
    intro k v h
    obtain ⟨p1, p2⟩ := p
    rw [dictGet] at h
    dsimp only at h
    by_cases hk : p1 = k
    · rw [if_pos hk] at h
      injection h with h2
      subst hk
      subst h2
      exact List.mem_cons_self _ _
    · rw [if_neg hk] at h
      exact List.mem_cons_of_mem _ (ih k v h)

/-- Claim C10: a question text equal to one of the fixed column names does
not get a column of its own — `row[question] = answer` overwrites the fixed
header field in place, so that row's cell under the fixed column holds the
answer value (the original header value is lost) and the column appears
exactly once. -/
theorem C10_fixed_column_overwritten (data : List SurveyItem) (i : Nat)
    (it : SurveyItem) (hi : data[i]? = some it) (q a : String)
    (hq : q ∈ fixedCols) (hmem : (q, a) ∈ it.answers)
    (hnd : (it.answers.map Prod.fst).Nodup) :
    (prepare_survey_dataframe data).cell i q = some (Cell.str a) ∧
    (prepare_survey_dataframe data).columns.count q = 1 := by
  have hget : dictGet (prepare_row it) q = some (Cell.str a) := by
    rw [prepare_row_map]
    apply dictGet_foldl_mem
    · exact List.mem_map.mpr ⟨(q, a), hmem, rfl⟩
    · rw [answersCells_keys]
      exact hnd
  have hrowmem : (q, Cell.str a) ∈ prepare_row it := dictGet_some_mem _ _ _ hget
  have hrow : (data.map prepare_row)[i]? = some (prepare_row it) := by
    rw [List.getElem?_map, hi]
    rfl
  have hrowin : prepare_row it ∈ data.map prepare_row := List.getElem?_mem hrow
  have hqcols : q ∈ (pdDataFrame (data.map prepare_row)).columns := by
    rw [pdDataFrame_columns]
    exact colsFold_key_mem _ [] (prepare_row it) (q, Cell.str a) hrowin hrowmem
  constructor
  · rw [prepare_survey_dataframe,
      pdDataFrame_cell_formula _ i (prepare_row it) q hrow hqcols, hget]
    rfl
  · have hnodup : (pdDataFrame (data.map prepare_row)).columns.Nodup := by
      rw [pdDataFrame_columns]
      exact colsFold_nodup _ [] (by simp)
    rw [prepare_survey_dataframe]
    exact List.count_eq_one_of_mem hnodup hqcols

/-- Witness for C10 at a concrete response answering a question named
"ID". -/
theorem C10_fixed_column_overwritten_witness :
    (([⟨7, "Retail", "Shop", "2024", none, none, [("ID", "X")]⟩]
        : List SurveyItem)[0]?
      = some ⟨7, "Retail", "Shop", "2024", none, none, [("ID", "X")]⟩) ∧
    ("ID" : String) ∈ fixedCols ∧
    (("ID", "X") : String × String)
      ∈ (⟨7, "Retail", "Shop", "2024", none, none, [("ID", "X")]⟩
          : SurveyItem).answers ∧
    ((prepare_survey_dataframe
        [⟨7, "Retail", "Shop", "2024", none, none, [("ID", "X")]⟩]).cell 0 "ID"
      = some (Cell.str "X") ∧
     (prepare_survey_dataframe
        [⟨7, "Retail", "Shop", "2024", none, none,
          [("ID", "X")]⟩]).columns.count "ID" = 1) :=
  ⟨by decide, by decide, by decide,
    C10_fixed_column_overwritten
      [⟨7, "Retail", "Shop", "2024", none, none, [("ID", "X")]⟩] 0
      ⟨7, "Retail", "Shop", "2024", none, none, [("ID", "X")]⟩ (by decide)
      "ID" "X" (by decide) (by decide) (by decide)⟩

theorem sepJoin_newline (h : String) :
    ∀ ls : List String,
      sepJoin "\n" (h :: ls) ++ "\n" = h ++ "\n" ++ linesText ls := by
  intro ls
  induction ls generalizing h with
  | nil => simp [sepJoin, linesText, String.append_empty]
  | cons s rest ih =>
    have hstep : sepJoin "\n" (h :: s :: rest)
        = h ++ "\n" ++ sepJoin "\n" (s :: rest) := rfl
    rw [hstep, String.append_assoc, String.append_assoc, ih s, linesText,
      ← String.append_assoc]

/-- Claim C6 counterexample: the CSV payload of a concrete flattened
dataframe starts with the UTF-8 bytes of the header text "ID," — not with
the byte-order mark EF BB BF claimed by the specification. -/
theorem C6_counterexample :
    (create_download_link_bytes (prepare_survey_dataframe
        [⟨1, "Retail", "Shop", "2024-01-01", none, none,
          [("Q1", "Yes")]⟩])).take 3 = [73, 68, 44] ∧
    (create_download_link_bytes (prepare_survey_dataframe
        [⟨1, "Retail", "Shop", "2024-01-01", none, none,
          [("Q1", "Yes")]⟩])).take 3 ≠ [0xEF, 0xBB, 0xBF] := by
  refine ⟨by decide, by decide⟩

/-- Claim C6 as amended: the download payload is the plain UTF-8 encoding —
with no byte-order mark prepended — of the CSV text, which is the
comma-separated header line holding the column names in flatten order,
followed by one comma-separated, newline-terminated line per row. -/
theorem C6_amended_csv_payload (df : DataFrame) :
    create_download_link_bytes df = utf8Bytes (df_to_csv df) ∧
    df_to_csv df = csvHeader df ++ "\n" ++ csvRowsText df ∧
    csvHeader df = sepJoin "," (df.columns.map csvField) := by
  refine ⟨rfl, ?_, rfl⟩
  rw [df_to_csv, sepJoin_newline, csvRowsText]

theorem skipWs_space (l : List Char) : skipWs (' ' :: l) = skipWs l := by
  rw [skipWs]
  simp +decide

theorem skipWs_newline (l : List Char) : skipWs ('\n' :: l) = skipWs l := by
  rw [skipWs]
  simp +decide

theorem skipWs_not_ws (c : Char) (l : List Char) (h : isWsCh c = false) :
    skipWs (c :: l) = c :: l := by
  rw [skipWs, h]
  simp

theorem skipWs_replicate_space :
    ∀ (m : Nat) (l : List Char), skipWs (List.replicate m ' ' ++ l) = skipWs l := by
  intro m
  induction m with
  | zero => intro l; rfl
  | succ m ih =>
    intro l
    rw [List.replicate_succ, List.cons_append, skipWs_space, ih]

theorem skipWs_indent (k : Nat) (l : List Char) :
    skipWs (indentChars k ++ l) = skipWs l := by
  rw [indentChars, skipWs_replicate_space]

theorem hexVal_hexDigitChar (n : Nat) (h : n < 16) :
    hexVal (hexDigitChar n) = some n := by
  interval_cases n <;> decide

theorem escString_cons (c : Char) (s : List Char) :
    escString (c :: s) = escChar c ++ escString s := rfl

theorem parseStringBody_escString :
    ∀ (s : List Char) (rest : List Char),
      parseStringBody (escString s ++ quoteCh :: rest) = some (s, rest) := by
  intro s
  induction s with
  | nil =>
    intro rest
    show parseStringBody (quoteCh :: rest) = some ([], rest)
    rw [parseStringBody.eq_def]
    simp
  | cons c s' ih =>
    intro rest
    rw [escString_cons, List.append_assoc, escChar]
    by_cases h1 : c = quoteCh
    · subst h1
      rw [if_pos rfl, List.cons_append, List.cons_append,
        parseStringBody.eq_def]
      simp +decide [ih rest]
    · rw [if_neg h1]
      by_cases h2 : c = backslashCh
      · subst h2
        rw [if_pos rfl, List.cons_append, List.cons_append,
          parseStringBody.eq_def]
        simp +decide [ih rest]
      · rw [if_neg h2]
        by_cases h3 : c = Char.ofNat 8
        · subst h3
          rw [if_pos rfl, List.cons_append, List.cons_append,
            parseStringBody.eq_def]
          simp +decide [ih rest]
        · rw [if_neg h3]
          by_cases h4 : c = Char.ofNat 9
          · subst h4
            rw [if_pos rfl, List.cons_append, List.cons_append,
              parseStringBody.eq_def]
            simp +decide [ih rest]
          · rw [if_neg h4]
            by_cases h5 : c = Char.ofNat 10
            · subst h5
              rw [if_pos rfl, List.cons_append, List.cons_append,
                parseStringBody.eq_def]
              simp +decide [ih rest]
            · rw [if_neg h5]
              by_cases h6 : c = Char.ofNat 12
              · subst h6
                rw [if_pos rfl, List.cons_append, List.cons_append,
                  parseStringBody.eq_def]
                simp +decide [ih rest]
              · rw [if_neg h6]
                by_cases h7 : c = Char.ofNat 13
                · subst h7
                  rw [if_pos rfl, List.cons_append, List.cons_append,
                    parseStringBody.eq_def]
                  simp +decide [ih rest]
                · rw [if_neg h7]
                  by_cases h8 : c.toNat < 32
                  · rw [if_pos h8]
                    have hd1 : hexVal (hexDigitChar (c.toNat / 16))
                        = some (c.toNat / 16) :=
                      hexVal_hexDigitChar _ (by omega)
                    have hd2 : hexVal (hexDigitChar (c.toNat % 16))
                        = some (c.toNat % 16) :=
                      hexVal_hexDigitChar _ (Nat.mod_lt _ (by omega))
                    have harith :
                        ((0 * 16 + 0) * 16 + c.toNat / 16) * 16 + c.toNat % 16
                          = c.toNat := by omega
                    have harith2 :
                        c.toNat / 16 * 16 + c.toNat % 16 = c.toNat := by omega
                    rw [List.cons_append, List.cons_append, List.cons_append,
                      List.cons_append, List.cons_append, List.cons_append,
                      parseStringBody.eq_def]
                    simp +decide [(by decide : hexVal '0' = some 0), hd1, hd2,
                      harith, harith2, Char.ofNat_toNat, ih rest]
                  · rw [if_neg h8, List.cons_append, List.nil_append,
                      parseStringBody.eq_def]
                    simp +decide [h1, h2, ih rest]

theorem digitChar_isDigit (d : Nat) (h : d < 10) :
    isDigitCh (digitChar d) = true := by
  interval_cases d <;> decide

theorem digitChar_toNat (d : Nat) (h : d < 10) :
    (digitChar d).toNat = 48 + d := by
  interval_cases d <;> decide

theorem natCharsAux_append (n : Nat) :
    ∀ acc : List Char, natCharsAux n acc = natCharsAux n [] ++ acc := by
  induction n using Nat.strong_induction_on with
  | _ n ih =>
    intro acc
    by_cases h : n < 10
    · conv_lhs => rw [natCharsAux]
      conv_rhs => rw [natCharsAux]
      rw [if_pos h, if_pos h]
      rfl
    · conv_lhs => rw [natCharsAux]
      conv_rhs => rw [natCharsAux]
      rw [if_neg h, if_neg h]
      rw [ih (n / 10) (Nat.div_lt_self (by omega) (by omega)),
        ih (n / 10) (Nat.div_lt_self (by omega) (by omega)) [digitChar (n % 10)],
        List.append_assoc]
      rfl

theorem natChars_core (n : Nat) :
    (∀ c ∈ natChars n, isDigitCh c = true) ∧
    natChars n ≠ [] ∧
    (∀ acc : Nat,
      (natChars n).foldl (fun a c => a * 10 + (c.toNat - 48)) acc
        = acc * 10 ^ (natChars n).length + n) := by
  induction n using Nat.strong_induction_on with
  | _ n ih =>
    by_cases h : n < 10
    · have hn : natChars n = [digitChar n] := by
        rw [natChars, natCharsAux, if_pos h]
      refine ⟨?_, by simp [hn], ?_⟩
      · intro c hc
        rw [hn] at hc
        simp only [List.mem_singleton] at hc
        subst hc
        exact digitChar_isDigit n h
      · intro acc
        rw [hn]
        simp only [List.foldl_cons, List.foldl_nil, List.length_singleton]
        rw [digitChar_toNat n h]
        omega
    · have hstep : natChars n = natChars (n / 10) ++ [digitChar (n % 10)] := by
        rw [natChars, natCharsAux, if_neg h,
          natCharsAux_append (n / 10) [digitChar (n % 10)]]
        rfl
      have hlt : n / 10 < n := Nat.div_lt_self (by omega) (by omega)
      obtain ⟨ihd, ihne, ihval⟩ := ih (n / 10) hlt
      refine ⟨?_, by simp [hstep], ?_⟩
      · intro c hc
        rw [hstep, List.mem_append] at hc
        rcases hc with hc | hc
        · exact ihd c hc
        · simp only [List.mem_singleton] at hc
          subst hc
          exact digitChar_isDigit _ (Nat.mod_lt _ (by omega))
      · intro acc
        rw [hstep, List.foldl_append, ihval acc]
        simp only [List.foldl_cons, List.foldl_nil, List.length_append,
          List.length_singleton]
        rw [digitChar_toNat _ (Nat.mod_lt _ (by omega))]
        have hmod : 48 + n % 10 - 48 = n % 10 := by omega
        rw [hmod]
        have hpow : (10 : Nat) ^ ((natChars (n / 10)).length + 1)
            = 10 ^ (natChars (n / 10)).length * 10 := by
          rw [pow_succ]
        rw [hpow]
        have hdm : n / 10 * 10 + n % 10 = n := by omega
        calc (acc * 10 ^ (natChars (n / 10)).length + n / 10) * 10 + n % 10
            = acc * (10 ^ (natChars (n / 10)).length * 10)
                + (n / 10 * 10 + n % 10) := by ring
          _ = acc * (10 ^ (natChars (n / 10)).length * 10) + n := by rw [hdm]

theorem parseDigits_run :
    ∀ (ds : List Char) (rest : List Char) (acc : Nat),
      (∀ c ∈ ds, isDigitCh c = true) →
      (∀ c, rest.head? = some c → isDigitCh c = false) →
      parseDigits (ds ++ rest) acc
        = (ds.foldl (fun a c => a * 10 + (c.toNat - 48)) acc, rest) := by
  intro ds
  induction ds with
  | nil =>
    intro rest acc _ hrest
    rcases rest with _ | ⟨c, rest'⟩
    · rfl
    · rw [List.nil_append, parseDigits, hrest c rfl]
      simp
  | cons d ds' ih =>
    intro rest acc hds hrest
    rw [List.cons_append, parseDigits, hds d (by simp)]
    simp only [if_true, List.foldl_cons]
    exact ih rest _ (fun c hc => hds c (by simp [hc])) hrest

theorem isDigitCh_ne_minus (c : Char) (h : isDigitCh c = true) : c ≠ '-' := by
  intro heq
  subst heq
  exact absurd h (by decide)

theorem parseIntChars_intChars (i : Int) (rest : List Char)
    (hrest : ∀ c, rest.head? = some c → isDigitCh c = false) :
    parseIntChars (intChars i ++ rest) = some (i, rest) := by
  by_cases h : i < 0
  · rw [intChars, if_pos h]
    obtain ⟨hdig, hne, hval⟩ := natChars_core i.natAbs
    have hrun := parseDigits_run (natChars i.natAbs) rest 0 hdig hrest
    have hfold : (natChars i.natAbs).foldl
        (fun a c => a * 10 + (c.toNat - 48)) 0 = i.natAbs := by
      rw [hval 0]
      simp
    rw [hfold] at hrun
    obtain ⟨hd, tl, hcons⟩ := List.exists_cons_of_ne_nil hne
    have hhd : isDigitCh hd = true := hdig hd (by rw [hcons]; simp)
    rw [hcons, List.cons_append] at hrun
    have hni : (-(i.natAbs : Int)) = i := by omega
    rw [hcons, List.cons_append, List.cons_append, parseIntChars]
    simp only [if_pos rfl]
    simp [hhd, hrun, hni]
    rw [abs_of_neg h]
    ring
  · rw [intChars, if_neg h]
    obtain ⟨hdig, hne, hval⟩ := natChars_core i.toNat
    have hrun := parseDigits_run (natChars i.toNat) rest 0 hdig hrest
    have hfold : (natChars i.toNat).foldl
        (fun a c => a * 10 + (c.toNat - 48)) 0 = i.toNat := by
      rw [hval 0]
      simp
    rw [hfold] at hrun
    obtain ⟨hd, tl, hcons⟩ := List.exists_cons_of_ne_nil hne
    have hhd : isDigitCh hd = true := hdig hd (by rw [hcons]; simp)
    rw [hcons, List.cons_append] at hrun
    have hpi : ((i.toNat : Int)) = i := Int.toNat_of_nonneg (by omega)
    rw [hcons, List.cons_append, parseIntChars.eq_def]
    simp [hhd, isDigitCh_ne_minus hd hhd, hrun, hpi]

theorem sizeJ_pos (v : Json) : 1 ≤ sizeJ v := by
  cases v <;> rw [sizeJ] <;> omega

theorem sizeL_pos (xs : List Json) : 1 ≤ sizeL xs := by
  cases xs <;> rw [sizeL] <;> omega

theorem sizeP_pos (ps : List (List Char × Json)) : 1 ≤ sizeP ps := by
  rcases ps with _ | ⟨⟨k, v⟩, ps⟩ <;> rw [sizeP] <;> omega

theorem isDigitCh_bounds (c : Char) (h : isDigitCh c = true) :
    48 ≤ c.toNat ∧ c.toNat ≤ 57 := by
  rw [isDigitCh] at h
  simp only [Bool.and_eq_true, decide_eq_true_eq] at h
  exact h

theorem isDigitCh_ne (c : Char) (h : isDigitCh c = true) (d : Char)
    (hd : d.toNat < 48 ∨ 57 < d.toNat) : c ≠ d := by
  obtain ⟨h1, h2⟩ := isDigitCh_bounds c h
  intro heq
  subst heq
  omega

theorem isDigitCh_not_ws (c : Char) (h : isDigitCh c = true) :
    isWsCh c = false := by
  have h1 : c ≠ ' ' := isDigitCh_ne c h ' ' (by decide)
  have h2 : c ≠ '\n' := isDigitCh_ne c h '\n' (by decide)
  have h3 : c ≠ '\t' := isDigitCh_ne c h '\t' (by decide)
  have h4 : c ≠ '\r' := isDigitCh_ne c h '\r' (by decide)
  rw [isWsCh]
  simp [h1, h2, h3, h4]

theorem intChars_head (i : Int) :
    ∃ c t, intChars i = c :: t ∧ (c = '-' ∨ isDigitCh c = true) := by
  by_cases h : i < 0
  · exact ⟨'-', natChars i.natAbs, by rw [intChars, if_pos h], Or.inl rfl⟩
  · obtain ⟨hdig, hne, _⟩ := natChars_core i.toNat
    obtain ⟨hd, tl, hcons⟩ := List.exists_cons_of_ne_nil hne
    exact ⟨hd, tl, by rw [intChars, if_neg h, hcons],
      Or.inr (hdig hd (by rw [hcons]; simp))⟩

theorem dumpsAt_null (lvl : Nat) : dumpsAt lvl .null = ['n', 'u', 'l', 'l'] := by
  rw [dumpsAt]

theorem dumpsAt_num (lvl : Nat) (i : Int) : dumpsAt lvl (.num i) = intChars i := by
  rw [dumpsAt]

theorem dumpsAt_str (lvl : Nat) (s : List Char) :
    dumpsAt lvl (.str s) = quoteCh :: (escString s ++ [quoteCh]) := by
  rw [dumpsAt, quoteString]
  rfl

theorem dumpsAt_arr_nil (lvl : Nat) : dumpsAt lvl (.arr []) = ['[', ']'] := by
  rw [dumpsAt]

theorem dumpsAt_obj_nil (lvl : Nat) :
    dumpsAt lvl (.obj []) = [lbraceCh, rbraceCh] := by
  rw [dumpsAt]

theorem dumpsAt_arr_cons (lvl : Nat) (x : Json) (xs : List Json) :
    dumpsAt lvl (.arr (x :: xs))
      = '[' :: '\n' ::
          (indentChars (lvl + 1) ++
            (dumpsAt (lvl + 1) x ++
              (dumpsItems (lvl + 1) xs ++
                '\n' :: (indentChars lvl ++ [']'])))) := by
  rw [dumpsAt]
  simp [List.append_assoc]

theorem dumpsAt_obj_cons (lvl : Nat) (k : List Char) (v : Json)
    (ps : List (List Char × Json)) :
    dumpsAt lvl (.obj ((k, v) :: ps))
      = lbraceCh :: '\n' ::
          (indentChars (lvl + 1) ++
            (quoteString k ++
              (':' :: ' ' ::
                (dumpsAt (lvl + 1) v ++
                  (dumpsPairs (lvl + 1) ps ++
                    '\n' :: (indentChars lvl ++ [rbraceCh])))))) := by
  rw [dumpsAt]
  simp [List.append_assoc]

theorem dumpsItems_cons (lvl : Nat) (x : Json) (xs : List Json) :
    dumpsItems lvl (x :: xs)
      = ',' :: '\n' :: (indentChars lvl ++ (dumpsAt lvl x ++ dumpsItems lvl xs)) := by
  rw [dumpsItems]
  simp [List.append_assoc]

theorem dumpsPairs_cons (lvl : Nat) (k : List Char) (v : Json)
    (ps : List (List Char × Json)) :
    dumpsPairs lvl ((k, v) :: ps)
      = ',' :: '\n' ::
          (indentChars lvl ++
            (quoteString k ++
              (':' :: ' ' :: (dumpsAt lvl v ++ dumpsPairs lvl ps)))) := by
  rw [dumpsPairs]
  simp [List.append_assoc]

theorem dumpsAt_head (lvl : Nat) (v : Json) :
    ∃ c t, dumpsAt lvl v = c :: t ∧ isWsCh c = false ∧ c ≠ ']' ∧
      c ≠ rbraceCh := by
  cases v with
  | null => exact ⟨'n', _, dumpsAt_null lvl, by decide, by decide, by decide⟩
  | num i =>
    obtain ⟨c, t, hct, hc⟩ := intChars_head i
    refine ⟨c, t, by rw [dumpsAt_num, hct], ?_, ?_, ?_⟩
    · rcases hc with rfl | hc
      · decide
      · exact isDigitCh_not_ws c hc
    · rcases hc with rfl | hc
      · decide
      · exact isDigitCh_ne c hc ']' (by decide)
    · rcases hc with rfl | hc
      · decide
      · exact isDigitCh_ne c hc rbraceCh (by decide)
  | str s =>
    exact ⟨quoteCh, _, dumpsAt_str lvl s, by decide, by decide, by decide⟩
  | arr xs =>
    cases xs with
    | nil => exact ⟨'[', _, dumpsAt_arr_nil lvl, by decide, by decide, by decide⟩
    | cons x xs =>
      exact ⟨'[', _, dumpsAt_arr_cons lvl x xs, by decide, by decide, by decide⟩
  | obj ps =>
    rcases ps with _ | ⟨⟨k, w⟩, ps⟩
    · exact ⟨lbraceCh, _, dumpsAt_obj_nil lvl, by decide, by decide, by decide⟩
    · exact ⟨lbraceCh, _, dumpsAt_obj_cons lvl k w ps, by decide, by decide,
        by decide⟩

theorem quoteString_cons (s : List Char) :
    quoteString s = quoteCh :: (escString s ++ [quoteCh]) := by
  rw [quoteString]
  rfl

theorem parse_dumps_round :
    ∀ fuel : Nat,
      (∀ (v : Json) (lvl : Nat) (l rest : List Char), sizeJ v ≤ fuel →
        (∀ c0, rest.head? = some c0 → isDigitCh c0 = false) →
        skipWs l = dumpsAt lvl v ++ rest →
        parseVal fuel l = some (v, rest)) ∧
      (∀ (xs : List Json) (lvl : Nat) (rest : List Char), sizeL xs ≤ fuel →
        parseArrRest fuel
          (dumpsItems (lvl + 1) xs ++ '\n' :: (indentChars lvl ++ (']' :: rest)))
          = some (xs, rest)) ∧
      (∀ (k : List Char) (w : Json) (lvl : Nat) (l rest : List Char),
        sizeJ w < fuel →
        (∀ c0, rest.head? = some c0 → isDigitCh c0 = false) →
        skipWs l = quoteString k ++ ':' :: ' ' :: (dumpsAt lvl w ++ rest) →
        parsePair fuel l = some ((k, w), rest)) ∧
      (∀ (ps : List (List Char × Json)) (lvl : Nat) (rest : List Char),
        sizeP ps ≤ fuel →
        parseObjRest fuel
          (dumpsPairs (lvl + 1) ps
            ++ '\n' :: (indentChars lvl ++ (rbraceCh :: rest)))
          = some (ps, rest)) := by
  intro fuel
  induction fuel with
  | zero =>
    refine ⟨?_, ?_, ?_, ?_⟩
    · intro v lvl l rest hsz _ _
      have := sizeJ_pos v
      omega
    · intro xs lvl rest hsz
      have := sizeL_pos xs
      omega
    · intro k w lvl l rest hsz _ _
      omega
    · intro ps lvl rest hsz
      have := sizeP_pos ps
      omega
  | succ fuel ih =>
    obtain ⟨ihv, iha, ihp, iho⟩ := ih
    refine ⟨?_, ?_, ?_, ?_⟩
    · -- parseVal
      intro v lvl l rest hsz hns hskip
      cases v with
      | null =>
        rw [dumpsAt_null] at hskip
        simp only [List.cons_append, List.nil_append] at hskip
        rw [parseVal.eq_def]
        simp +decide [hskip]
      | num i =>
        rw [dumpsAt_num] at hskip
        obtain ⟨c, t, hct, hc⟩ := intChars_head i
        have hpi := parseIntChars_intChars i rest hns
        rw [hct, List.cons_append] at hskip hpi
        have hcn : c ≠ 'n' := by
          rcases hc with rfl | hc
          · decide
          · exact isDigitCh_ne c hc 'n' (by decide)
        have hcq : c ≠ quoteCh := by
          rcases hc with rfl | hc
          · decide
          · exact isDigitCh_ne c hc quoteCh (by decide)
        have hcd : (c = '-' || isDigitCh c) = true := by
          rcases hc with rfl | hc
          · simp
          · simp [hc]
        rw [parseVal.eq_def]
        simp [hskip, hcn, hcq, hcd, hpi]
      | str s =>
        rw [dumpsAt_str] at hskip
        simp only [List.cons_append, List.append_assoc,
          List.singleton_append] at hskip
        rw [parseVal.eq_def]
        simp +decide [hskip, parseStringBody_escString s rest]
      | arr xs =>
        cases xs with
        | nil =>
          rw [dumpsAt_arr_nil] at hskip
          simp only [List.cons_append, List.nil_append] at hskip
          rw [parseVal.eq_def]
          simp +decide [hskip, skipWs_not_ws ']' rest (by decide)]
        | cons x xs =>
          rw [dumpsAt_arr_cons] at hskip
          simp only [List.cons_append, List.append_assoc,
            List.singleton_append] at hskip
          rw [sizeJ, sizeL] at hsz
          obtain ⟨cx, tx, hcx, hwsx, hnbx, _⟩ := dumpsAt_head (lvl + 1) x
          have hnsR : ∀ c0 : Char,
              (dumpsItems (lvl + 1) xs
                ++ '\n' :: (indentChars lvl ++ (']' :: rest))).head? = some c0 →
              isDigitCh c0 = false := by
            cases xs with
            | nil =>
              rw [dumpsItems]
              intro c0 hc0
              simp only [List.nil_append, List.head?_cons,
                Option.some_inj] at hc0
              subst hc0
              decide
            | cons y ys =>
              rw [dumpsItems_cons]
              intro c0 hc0
              simp only [List.cons_append, List.head?_cons,
                Option.some_inj] at hc0
              subst hc0
              decide
          have hval := ihv x (lvl + 1)
            (dumpsAt (lvl + 1) x
              ++ (dumpsItems (lvl + 1) xs
                ++ '\n' :: (indentChars lvl ++ (']' :: rest))))
            (dumpsItems (lvl + 1) xs
              ++ '\n' :: (indentChars lvl ++ (']' :: rest)))
            (by omega) hnsR
            (by rw [hcx, List.cons_append, skipWs_not_ws _ _ hwsx])
          have harr := iha xs lvl rest (by omega)
          rw [hcx, List.cons_append] at hval
          have hswl2 : skipWs ('\n' :: (indentChars (lvl + 1)
              ++ (dumpsAt (lvl + 1) x
                ++ (dumpsItems (lvl + 1) xs
                  ++ '\n' :: (indentChars lvl ++ (']' :: rest))))))
              = cx :: (tx ++ (dumpsItems (lvl + 1) xs
                  ++ '\n' :: (indentChars lvl ++ (']' :: rest)))) := by
            rw [skipWs_newline, skipWs_indent, hcx, List.cons_append,
              skipWs_not_ws _ _ hwsx]
          rw [parseVal.eq_def]
          simp +decide [hskip, hswl2, hnbx, hval, harr]
      | obj ps =>
        rcases ps with _ | ⟨⟨k, w⟩, ps⟩
        · rw [dumpsAt_obj_nil] at hskip
          simp only [List.cons_append, List.nil_append] at hskip
          rw [parseVal.eq_def]
          simp +decide [hskip, skipWs_not_ws rbraceCh rest (by decide)]
        · rw [dumpsAt_obj_cons] at hskip
          simp only [List.cons_append, List.append_assoc,
            List.singleton_append] at hskip
          rw [sizeJ, sizeP] at hsz
          have hwpos := sizeJ_pos w
          have hpspos := sizeP_pos ps
          have hnsR : ∀ c0 : Char,
              (dumpsPairs (lvl + 1) ps
                ++ '\n' :: (indentChars lvl ++ (rbraceCh :: rest))).head?
                = some c0 →
              isDigitCh c0 = false := by
            rcases ps with _ | ⟨⟨k2, w2⟩, ps2⟩
            · rw [dumpsPairs]
              intro c0 hc0
              simp only [List.nil_append, List.head?_cons,
                Option.some_inj] at hc0
              subst hc0
              decide
            · rw [dumpsPairs_cons]
              intro c0 hc0
              simp only [List.cons_append, List.head?_cons,
                Option.some_inj] at hc0
              subst hc0
              decide
          have hpair := ihp k w (lvl + 1)
            (quoteCh :: ((escString k ++ [quoteCh])
              ++ (':' :: ' ' :: (dumpsAt (lvl + 1) w
                ++ (dumpsPairs (lvl + 1) ps
                  ++ '\n' :: (indentChars lvl ++ (rbraceCh :: rest)))))))
            (dumpsPairs (lvl + 1) ps
              ++ '\n' :: (indentChars lvl ++ (rbraceCh :: rest)))
            (by omega) hnsR
            (by rw [skipWs_not_ws _ _ (by decide), quoteString_cons,
                  List.cons_append])
          simp only [List.append_assoc, List.singleton_append] at hpair
          have hobj := iho ps lvl rest (by omega)
          have hswl2 : skipWs ('\n' :: (indentChars (lvl + 1)
              ++ (quoteString k
                ++ (':' :: ' ' :: (dumpsAt (lvl + 1) w
                  ++ (dumpsPairs (lvl + 1) ps
                    ++ '\n' :: (indentChars lvl ++ (rbraceCh :: rest))))))))
              = quoteCh :: ((escString k ++ [quoteCh])
                  ++ (':' :: ' ' :: (dumpsAt (lvl + 1) w
                    ++ (dumpsPairs (lvl + 1) ps
                      ++ '\n' :: (indentChars lvl ++ (rbraceCh :: rest)))))) := by
            rw [skipWs_newline, skipWs_indent, quoteString_cons,
              List.cons_append, skipWs_not_ws _ _ (by decide)]
          rw [parseVal.eq_def]
          simp +decide [hskip, hswl2, hpair, hobj]
    · -- parseArrRest
      intro xs lvl rest hsz
      cases xs with
      | nil =>
        rw [dumpsItems, List.nil_append, parseArrRest.eq_def]
        simp +decide [skipWs_newline, skipWs_indent,
          skipWs_not_ws ']' rest (by decide)]
      | cons y ys =>
        rw [dumpsItems_cons]
        rw [sizeL] at hsz
        obtain ⟨cy, ty, hcy, hwsy, hnby, _⟩ := dumpsAt_head (lvl + 1) y
        simp only [List.cons_append, List.append_assoc]
        have hnsR : ∀ c0 : Char,
            (dumpsItems (lvl + 1) ys
              ++ '\n' :: (indentChars lvl ++ (']' :: rest))).head? = some c0 →
            isDigitCh c0 = false := by
          cases ys with
          | nil =>
            rw [dumpsItems]
            intro c0 hc0
            simp only [List.nil_append, List.head?_cons,
              Option.some_inj] at hc0
            subst hc0
            decide
          | cons z zs =>
            rw [dumpsItems_cons]
            intro c0 hc0
            simp only [List.cons_append, List.head?_cons,
              Option.some_inj] at hc0
            subst hc0
            decide
        have hval := ihv y (lvl + 1)
          ('\n' :: (indentChars (lvl + 1)
            ++ (dumpsAt (lvl + 1) y
              ++ (dumpsItems (lvl + 1) ys
                ++ '\n' :: (indentChars lvl ++ (']' :: rest))))))
          (dumpsItems (lvl + 1) ys
            ++ '\n' :: (indentChars lvl ++ (']' :: rest)))
          (by omega) hnsR
          (by rw [skipWs_newline, skipWs_indent, hcy, List.cons_append,
                skipWs_not_ws _ _ hwsy, ← List.cons_append, ← hcy])
        have harr := iha ys lvl rest (by omega)
        rw [parseArrRest.eq_def]
        simp +decide [skipWs_not_ws ',' _ (by decide), hval, harr]
    · -- parsePair
      intro k w lvl l rest hsz hns hskip
      rw [quoteString_cons, List.cons_append, List.append_assoc,
        List.singleton_append] at hskip
      obtain ⟨cw, tw, hcw, hwsw, _, _⟩ := dumpsAt_head lvl w
      have hsb := parseStringBody_escString k
        (':' :: ' ' :: (dumpsAt lvl w ++ rest))
      have hval := ihv w lvl (' ' :: (dumpsAt lvl w ++ rest)) rest (by omega)
        hns
        (by rw [skipWs_space, hcw, List.cons_append, skipWs_not_ws _ _ hwsw,
              ← List.cons_append, ← hcw])
      rw [parsePair.eq_def]
      simp +decide [hskip, hsb, hval, skipWs_not_ws ':' _ (by decide)]
    · -- parseObjRest
      intro ps lvl rest hsz
      rcases ps with _ | ⟨⟨k, w⟩, ps⟩
      · rw [dumpsPairs, List.nil_append, parseObjRest.eq_def]
        simp +decide [skipWs_newline, skipWs_indent,
          skipWs_not_ws rbraceCh rest (by decide)]
      · rw [dumpsPairs_cons]
        rw [sizeP] at hsz
        have hwpos := sizeJ_pos w
        have hpspos := sizeP_pos ps
        simp only [List.cons_append, List.append_assoc]
        have hnsR : ∀ c0 : Char,
            (dumpsPairs (lvl + 1) ps
              ++ '\n' :: (indentChars lvl ++ (rbraceCh :: rest))).head?
              = some c0 →
            isDigitCh c0 = false := by
          rcases ps with _ | ⟨⟨k2, w2⟩, ps2⟩
          · rw [dumpsPairs]
            intro c0 hc0
            simp only [List.nil_append, List.head?_cons,
              Option.some_inj] at hc0
            subst hc0
            decide
          · rw [dumpsPairs_cons]
            intro c0 hc0
            simp only [List.cons_append, List.head?_cons,
              Option.some_inj] at hc0
            subst hc0
            decide
        have hpair := ihp k w (lvl + 1)
          ('\n' :: (indentChars (lvl + 1)
            ++ (quoteString k
              ++ (':' :: ' ' :: (dumpsAt (lvl + 1) w
                ++ (dumpsPairs (lvl + 1) ps
                  ++ '\n' :: (indentChars lvl ++ (rbraceCh :: rest))))))))
          (dumpsPairs (lvl + 1) ps
            ++ '\n' :: (indentChars lvl ++ (rbraceCh :: rest)))
          (by omega) hnsR
          (by rw [skipWs_newline, skipWs_indent, quoteString_cons,
                List.cons_append, skipWs_not_ws _ _ (by decide),
                ← List.cons_append, ← quoteString_cons])
        have hobj := iho ps lvl rest (by omega)
        rw [parseObjRest.eq_def]
        simp +decide [skipWs_not_ws ',' _ (by decide), hpair, hobj]

mutual

theorem sizeJ_le_length (v : Json) (lvl : Nat) :
    sizeJ v ≤ (dumpsAt lvl v).length := by
  cases v with
  | null => rw [sizeJ, dumpsAt_null]; simp
  | num i =>
    rw [sizeJ, dumpsAt_num]
    obtain ⟨c, t, hct, _⟩ := intChars_head i
    rw [hct]
    simp
  | str s => rw [sizeJ, dumpsAt_str]; simp
  | arr xs =>
    cases xs with
    | nil => rw [sizeJ, sizeL, dumpsAt_arr_nil]; simp
    | cons x xs =>
      rw [sizeJ, sizeL, dumpsAt_arr_cons]
      have h1 := sizeJ_le_length x (lvl + 1)
      have h2 := sizeL_le_length xs (lvl + 1)
      simp only [List.length_cons, List.length_append]
      omega
  | obj ps =>
    rcases ps with _ | ⟨⟨k, w⟩, ps⟩
    · rw [sizeJ, sizeP, dumpsAt_obj_nil]; simp
    · rw [sizeJ, sizeP, dumpsAt_obj_cons]
      have h1 := sizeJ_le_length w (lvl + 1)
      have h2 := sizeP_le_length ps (lvl + 1)
      simp only [List.length_cons, List.length_append]
      omega

theorem sizeL_le_length (xs : List Json) (lvl : Nat) :
    sizeL xs ≤ (dumpsItems lvl xs).length + 1 := by
  cases xs with
  | nil => rw [sizeL, dumpsItems]; simp
  | cons x xs =>
    rw [sizeL, dumpsItems_cons]
    have h1 := sizeJ_le_length x lvl
    have h2 := sizeL_le_length xs lvl
    simp only [List.length_cons, List.length_append]
    omega

theorem sizeP_le_length (ps : List (List Char × Json)) (lvl : Nat) :
    sizeP ps ≤ (dumpsPairs lvl ps).length + 1 := by
  rcases ps with _ | ⟨⟨k, w⟩, ps⟩
  · rw [sizeP, dumpsPairs]; simp
  · rw [sizeP, dumpsPairs_cons]
    have h1 := sizeJ_le_length w lvl
    have h2 := sizeP_le_length ps lvl
    simp only [List.length_cons, List.length_append]
    omega

end

theorem loads_dumpsAt (v : Json) : loads ⟨dumpsAt 0 v⟩ = some v := by
  rw [loads]
  have hdata : (String.mk (dumpsAt 0 v)).data = dumpsAt 0 v := rfl
  rw [hdata]
  obtain ⟨c, t, hct, hws, _, _⟩ := dumpsAt_head 0 v
  have hskip : skipWs (dumpsAt 0 v) = dumpsAt 0 v ++ [] := by
    rw [List.append_nil, hct, skipWs_not_ws _ _ hws]
  have hsz : sizeJ v ≤ (dumpsAt 0 v).length + 1 := by
    have := sizeJ_le_length v 0
    omega
  have hval := (parse_dumps_round ((dumpsAt 0 v).length + 1)).1 v 0
    (dumpsAt 0 v) [] hsz (by intro c0 hc0; simp at hc0) hskip
  rw [hval]
  simp [skipWs]

theorem string_mk_data (s : String) : String.mk s.data = s := by
  cases s
  rfl

theorem decodeOptStr_optJson (o : Option String) :
    decodeOptStr (optJson o) = some o := by
  cases o with
  | none => rfl
  | some s =>
    rw [optJson, decodeOptStr, string_mk_data]

theorem decodeAnswers_round (ans : List (String × String)) :
    decodeAnswers (ans.map (fun qa => (qa.1.data, Json.str qa.2.data)))
      = some ans := by
  induction ans with
  | nil => rfl
  | cons qa rest ih =>
    rw [List.map_cons, decodeAnswers, ih]
    simp [string_mk_data]

theorem jsonToItem_round (it : SurveyItem) :
    jsonToItem (itemToJson it) = some it := by
  obtain ⟨i, c, m, t, la, lo, ans⟩ := it
  rw [itemToJson, jsonToItem]
  simp [decodeOptStr_optJson, decodeAnswers_round, string_mk_data]

theorem decodeItemList_round (data : List SurveyItem) :
    decodeItemList (data.map itemToJson) = some data := by
  induction data with
  | nil => rfl
  | cons it rest ih =>
    rw [List.map_cons, decodeItemList, jsonToItem_round, ih]
    rfl

theorem jsonToItems_round (data : List SurveyItem) :
    jsonToItems (dataToJson data) = some data := by
  rw [dataToJson, jsonToItems, decodeItemList_round]

/-- Claim C7: serializing a response list with the JSON export
(`json.dumps(..., ensure_ascii=False, indent=2)`) and parsing the result back
reproduces the original list exactly — each response's nested answers mapping
included (structural equality) — rather than a flattened tabular shape. -/
theorem C7_json_round_trip (data : List SurveyItem) :
    (loads ⟨create_json_download_link_text data⟩).bind jsonToItems
      = some data ∧
    loads ⟨create_json_download_link_text data⟩ = some (dataToJson data) := by
  constructor
  · rw [create_json_download_link_text, loads_dumpsAt]
    simp [jsonToItems_round]
  · rw [create_json_download_link_text, loads_dumpsAt]

/-- Claim C8 counterexample: a present but corrupt `data.json` (content ",",
which is not a JSON document under any parser: the verified parser `loads`,
used here to instantiate the library-parser oracle, rejects it just as
Python's `json.load` does) makes `load_data` raise an uncaught exception
instead of returning the empty category list with an error message. -/
theorem C8_counterexample :
    loads "," = none ∧
    load_data loads (FileRead.content ",") = LoadOutcome.exceptionRaised ∧
    load_data loads (FileRead.content ",")
      ≠ LoadOutcome.errorEmptyCatalog emptyCatalog := by
  have h : loads "," = none := by
    rw [loads, parseVal.eq_def]
    simp +decide [skipWs, (show ("," : String).data = [','] from rfl)]
  refine ⟨h, ?_, ?_⟩
  · rw [load_data, h]
  · rw [load_data, h]
    simp

/-- Claim C8 as amended: only a missing `data.json` (`FileNotFoundError`) is
recovered — with a user-visible error and the empty catalog value.  For every
behaviour `pyLoad` of the standard library's `json.load` on file text and
every content `s`: a corrupt document (a raised `JSONDecodeError`, i.e.
`pyLoad s = none`) or any non-`FileNotFoundError` read error propagates as an
uncaught exception, and a successfully parsed document is returned as-is. -/
theorem C8_amended_load_data (pyLoad : String → Option Json) (s : String) :
    load_data pyLoad FileRead.fileNotFound
      = LoadOutcome.errorEmptyCatalog emptyCatalog ∧
    load_data pyLoad FileRead.otherReadError = LoadOutcome.exceptionRaised ∧
    (pyLoad s = none →
      load_data pyLoad (FileRead.content s) = LoadOutcome.exceptionRaised) ∧
    (∀ j, pyLoad s = some j →
      load_data pyLoad (FileRead.content s) = LoadOutcome.ok j) := by
  refine ⟨rfl, rfl, ?_, ?_⟩
  · intro h
    rw [load_data, h]
  · intro j h
    rw [load_data, h]

/-- Witness for the amended C8: the oracle instantiated with the verified
parser at the concrete corrupt content ",", on which it agrees with Python's
`json.load`. -/
theorem C8_amended_load_data_witness :
    loads "," = none ∧
    load_data loads (FileRead.content ",") = LoadOutcome.exceptionRaised := by
  have h : loads "," = none := by
    rw [loads, parseVal.eq_def]
    simp +decide [skipWs, (show ("," : String).data = [','] from rfl)]
  exact ⟨h, (C8_amended_load_data loads ",").2.2.1 h⟩
